import Mathlib

/-!
Verification of the per-isolate executor core (`src/isolate/executor.cc` of
isolated-vm): Executor, CpuTimer, WallTimer, Scope, Lock and Unlock.

The embedding models a single OS thread acting on a store of executors and of
live scoped objects (CpuTimer / WallTimer / Scope / Unlock pause scopes), each
addressed by a numeric id allocated from a counter.  Clock reads (`Now()` and
`steady_clock::now()`) are passed in explicitly as integer nanosecond values.
C++ `assert` failures abort the process; an operation whose assertion fails is
modelled as returning `none` (no resulting state).
-/

namespace ivm

/-- Pointwise update of an id-addressed store. -/
def setf {α : Type} (f : Nat → α) (i : Nat) (v : α) : Nat → α :=
  fun j => if j = i then v else f j

/-- A live `Executor::CpuTimer` (executor.cc lines 21-27): the executor it
charges, the saved previous head of the thread-local timer stack (`last`), and
the last value of `Now()` recorded in its `time` field. -/
structure CpuTimerRec where
  exec : Nat
  last : Option Nat
  time : Int
deriving Repr, DecidableEq

/-- A live `Executor::WallTimer` (executor.cc lines 74-86): its executor, the
captured `cpu_timer_thread` value (`cpu_timer` member), and the steady-clock
value recorded when (and only when) it installed itself. -/
structure WallTimerRec where
  exec : Nat
  cpu_timer : Option Nat
  time : Int
deriving Repr, DecidableEq

/-- A live `Executor::Scope` (executor.cc lines 108-110): the saved previous
`current_executor`. -/
structure ScopeRec where
  last : Option Nat
deriving Repr, DecidableEq

/-- A live pause scope of `Executor::Unlock` (executor.cc line 126): the
captured `env.executor.cpu_timer` value. -/
structure PauseRec where
  cpu_timer : Option Nat
deriving Repr, DecidableEq

/-- The mutable per-executor fields of `Executor` (executor.h data model per
spec section 3): accumulated times, currently installed timers, the state of
the external quota `timer_holder` (modelled as a paused flag), and the
`default_executor` / `default_thread` values captured at construction
(executor.cc lines 10-13). -/
structure ExecRec where
  cpu_time : Int
  wall_time : Int
  cpu_timer : Option Nat
  wall_timer : Option Nat
  holder_paused : Bool
  default_executor : Nat
  default_thread : Nat
deriving Repr, DecidableEq

/-- Fields of a freshly constructed executor: zero totals, no installed
timers, quota timer running. -/
def ExecRec.init : ExecRec :=
  { cpu_time := 0, wall_time := 0, cpu_timer := none, wall_timer := none,
    holder_paused := false, default_executor := 0, default_thread := 0 }

/-- Whole-system state seen by one thread: the executor store, the stores of
live scoped objects, the fresh-id counter, and the two thread-local slots
`current_executor` and `cpu_timer_thread` (executor.cc lines 15-16). -/
structure State where
  execs : Nat → ExecRec
  cpuT : Nat → Option CpuTimerRec
  wallT : Nat → Option WallTimerRec
  scopes : Nat → Option ScopeRec
  pauses : Nat → Option PauseRec
  nextId : Nat
  current_executor : Option Nat
  cpu_timer_thread : Option Nat

/-- The empty initial state: no executors entered, no live scoped objects. -/
def s0 : State :=
  { execs := fun _ => ExecRec.init, cpuT := fun _ => none, wallT := fun _ => none,
    scopes := fun _ => none, pauses := fun _ => none, nextId := 0,
    current_executor := none, cpu_timer_thread := none }

/-- `Executor::Executor` (executor.cc lines 10-13): capture the currently
current executor as `default_executor`, installing self and recording the
constructing thread when none is current; `default_thread` chains to the
default executor's `default_thread` otherwise. -/
def execCtorP (selfId threadId : Nat) (s : State) : State :=
  match s.current_executor with
  | none =>
      { s with
        execs := setf s.execs selfId
          { ExecRec.init with
            default_executor := selfId
            default_thread := threadId }
        current_executor := some selfId }
  | some c =>
      { s with
        execs := setf s.execs selfId
          { ExecRec.init with
            default_executor := c
            default_thread := (s.execs c).default_thread } }

/-- `Executor::CpuTimer::CpuTimer` (executor.cc lines 21-27): record
`last := cpu_timer_thread` and `time := Now()`, push self as the new thread
head, then under `timer_mutex` assert `executor.cpu_timer == nullptr` and
install self. -/
def cpuCtorP (e : Nat) (now : Int) (s : State) : Option State :=
  let id := s.nextId
  if (s.execs e).cpu_timer = none then
    some { s with
           cpuT := setf s.cpuT id (some { exec := e, last := s.cpu_timer_thread, time := now })
           cpu_timer_thread := some id
           nextId := id + 1
           execs := setf s.execs e { s.execs e with cpu_timer := some id } }
  else none

/-- `Executor::CpuTimer::~CpuTimer` (executor.cc lines 29-35): pop self from
the thread stack (`cpu_timer_thread = last`), then under `timer_mutex` add
`Now() - time` to `cpu_time`, assert `executor.cpu_timer == this` and clear
it. -/
def cpuDtorP (id : Nat) (now : Int) (s : State) : Option State :=
  match s.cpuT id with
  | none => none
  | some r =>
      if (s.execs r.exec).cpu_timer = some id then
        some { s with
               cpu_timer_thread := r.last
               cpuT := setf s.cpuT id none
               execs := setf s.execs r.exec
                 { s.execs r.exec with
                   cpu_time := (s.execs r.exec).cpu_time + (now - r.time)
                   cpu_timer := none } }
      else none

/-- `Executor::CpuTimer::Pause` (executor.cc lines 41-47): under `timer_mutex`
flush `Now() - time` into `cpu_time`, assert `executor.cpu_timer == this`,
clear it, and pause the executor's quota `timer_holder`. -/
def cpuPauseP (id : Nat) (now : Int) (s : State) : Option State :=
  match s.cpuT id with
  | none => none
  | some r =>
      if (s.execs r.exec).cpu_timer = some id then
        some { s with
               execs := setf s.execs r.exec
                 { s.execs r.exec with
                   cpu_time := (s.execs r.exec).cpu_time + (now - r.time)
                   cpu_timer := none
                   holder_paused := true } }
      else none

/-- `Executor::CpuTimer::Resume` (executor.cc lines 49-55): under
`timer_mutex` set `time = Now()`, assert `executor.cpu_timer == nullptr`,
reinstall self, and resume the quota `timer_holder`. -/
def cpuResumeP (id : Nat) (now : Int) (s : State) : Option State :=
  match s.cpuT id with
  | none => none
  | some r =>
      if (s.execs r.exec).cpu_timer = none then
        some { s with
               cpuT := setf s.cpuT id (some { r with time := now })
               execs := setf s.execs r.exec
                 { s.execs r.exec with cpu_timer := some id, holder_paused := false } }
      else none

/-- The conditional `cpu_timer->Pause()` at the head of
`Executor::WallTimer::WallTimer` (executor.cc lines 77-79) and the symmetric
`Resume` call in the destructor (lines 90-92): a no-op when the captured
pointer is null. -/
def pausePart (captured : Option Nat) (now : Int) (s : State) : Option State :=
  match captured with
  | none => some s
  | some t => cpuPauseP t now s

/-- Conditional `cpu_timer->Resume()` (executor.cc lines 90-92). -/
def resumePart (captured : Option Nat) (now : Int) (s : State) : Option State :=
  match captured with
  | none => some s
  | some t => cpuResumeP t now s

/-- Second half of `Executor::WallTimer::WallTimer` (executor.cc lines 81-85):
the object exists with its captured `cpu_timer`; if `executor.wall_timer` is
null, install self under `timer_mutex` and record the steady clock, otherwise
leave the executor untouched. -/
def wallInstallP (e : Nat) (captured : Option Nat) (nowW : Int) (s : State) : State :=
  let id := s.nextId
  if (s.execs e).wall_timer = none then
    { s with
      wallT := setf s.wallT id (some { exec := e, cpu_timer := captured, time := nowW })
      nextId := id + 1
      execs := setf s.execs e { s.execs e with wall_timer := some id } }
  else
    { s with
      wallT := setf s.wallT id (some { exec := e, cpu_timer := captured, time := 0 })
      nextId := id + 1 }

/-- `Executor::WallTimer::WallTimer` (executor.cc lines 74-86): capture
`cpu_timer_thread`, pause it if non-null, then maybe install as the outermost
wall timer. -/
def wallCtorP (e : Nat) (nowP nowW : Int) (s : State) : Option State :=
  match pausePart s.cpu_timer_thread nowP s with
  | none => none
  | some s1 => some (wallInstallP e s.cpu_timer_thread nowW s1)

/-- Second half of `Executor::WallTimer::~WallTimer` (executor.cc lines
94-98): if self is the installed wall timer, clear it under `timer_mutex` and
add the elapsed steady-clock duration to `wall_time`. -/
def wallFlushP (id : Nat) (r : WallTimerRec) (nowW : Int) (s : State) : State :=
  if (s.execs r.exec).wall_timer = some id then
    { s with
      wallT := setf s.wallT id none
      execs := setf s.execs r.exec
        { s.execs r.exec with
          wall_timer := none
          wall_time := (s.execs r.exec).wall_time + (nowW - r.time) } }
  else
    { s with wallT := setf s.wallT id none }

/-- `Executor::WallTimer::~WallTimer` (executor.cc lines 88-99): resume the
captured CPU timer if any, then maybe flush the elapsed wall time. -/
def wallDtorP (id : Nat) (nowR nowW : Int) (s : State) : Option State :=
  match s.wallT id with
  | none => none
  | some r =>
      match resumePart r.cpu_timer nowR s with
      | none => none
      | some s1 => some (wallFlushP id r nowW s1)

/-- `Executor::Scope::Scope` (executor.cc lines 108-110): save the outgoing
`current_executor` in `last` and install the target executor. -/
def scopeCtorP (e : Nat) (s : State) : State :=
  { s with
    scopes := setf s.scopes s.nextId (some { last := s.current_executor })
    nextId := s.nextId + 1
    current_executor := some e }

/-- Modelled from the spec: `Executor::Scope`'s destructor is declared in
executor.h, which is not part of the sources here; per spec section 4.4
"Destruction restores `last`" it writes the saved value back to
`current_executor`. -/
def scopeDtorP (id : Nat) (s : State) : Option State :=
  match s.scopes id with
  | none => none
  | some r =>
      some { s with scopes := setf s.scopes id none, current_executor := r.last }

/-- `Executor::Lock::Lock` (executor.cc lines 115-121): member construction
order `scope`, `wall_timer`, `locker`, `cpu_timer`, `isolate_scope`,
`handle_scope`.  The locker acquisition and the two engine scopes are external
to the executor state and change nothing here. -/
def lockCtorP (e : Nat) (nowP nowW now0 : Int) (s : State) : Option State :=
  let s1 := scopeCtorP e s
  match wallCtorP e nowP nowW s1 with
  | none => none
  | some s2 => cpuCtorP e now0 s2

/-- Modelled from the spec: `Executor::Lock`'s destructor is implicit (member
destructors in reverse declaration order, declarations in executor.h which is
not part of the sources here); per spec section 4.5 "Destruction runs in
reverse" it destroys `handle_scope`, `isolate_scope`, `cpu_timer`, `locker`,
`wall_timer`, `scope` in that order. -/
def lockDtorP (cid wid sid : Nat) (now1 nowR nowWD : Int) (s : State) : Option State :=
  match cpuDtorP cid now1 s with
  | none => none
  | some s1 =>
      match wallDtorP wid nowR nowWD s1 with
      | none => none
      | some s2 => scopeDtorP sid s2

/-- `Executor::Unlock::Unlock` (executor.cc line 126) with its pause scope
modelled from the spec (section 4.6: "constructs a scoped pause of the current
CpuTimer and releases the isolate mutex"; the pause-scope class itself lives
in executor.h, which is not part of the sources here): read
`env.executor.cpu_timer` (with no `timer_mutex`), pause it if non-null,
release the locker. -/
def unlockCtorP (e : Nat) (now : Int) (s : State) : Option State :=
  let captured := (s.execs e).cpu_timer
  match pausePart captured now s with
  | none => none
  | some s1 =>
      some { s1 with
             pauses := setf s1.pauses s1.nextId (some { cpu_timer := captured })
             nextId := s1.nextId + 1 }

/-- Modelled from the spec: `Executor::Unlock`'s destructor (executor.h, not
part of the sources here; spec section 4.6 "Destruction re-acquires and
resumes in the reverse order"): re-acquire the locker, then resume the
captured CPU timer if any. -/
def unlockDtorP (id : Nat) (now : Int) (s : State) : Option State :=
  match s.pauses id with
  | none => none
  | some r =>
      match resumePart r.cpu_timer now s with
      | none => none
      | some s1 => some { s1 with pauses := setf s1.pauses id none }

/-- One operation of the core, as performed by a single thread: each
constructor corresponds to one constructor, destructor or member function in
executor.cc.  Clock readings are explicit `Int` arguments. -/
inductive Op where
  | execCtor (selfId threadId : Nat)
  | cpuCtor (e : Nat) (now : Int)
  | cpuDtor (id : Nat) (now : Int)
  | cpuPause (id : Nat) (now : Int)
  | cpuResume (id : Nat) (now : Int)
  | wallCtor (e : Nat) (nowP nowW : Int)
  | wallDtor (id : Nat) (nowR nowW : Int)
  | scopeCtor (e : Nat)
  | scopeDtor (id : Nat)
  | lockCtor (e : Nat) (nowP nowW now0 : Int)
  | lockDtor (cid wid sid : Nat) (now1 nowR nowWD : Int)
  | unlockCtor (e : Nat) (now : Int)
  | unlockDtor (id : Nat) (now : Int)
deriving Repr, DecidableEq

/-- Small-step semantics of the core: dispatch to the per-operation state
transformers.  `none` models a fatal assertion failure. -/
def step (op : Op) (s : State) : Option State :=
  match op with
  | .execCtor a b => some (execCtorP a b s)
  | .cpuCtor e now => cpuCtorP e now s
  | .cpuDtor id now => cpuDtorP id now s
  | .cpuPause id now => cpuPauseP id now s
  | .cpuResume id now => cpuResumeP id now s
  | .wallCtor e nowP nowW => wallCtorP e nowP nowW s
  | .wallDtor id nowR nowW => wallDtorP id nowR nowW s
  | .scopeCtor e => some (scopeCtorP e s)
  | .scopeDtor id => scopeDtorP id s
  | .lockCtor e nowP nowW now0 => lockCtorP e nowP nowW now0 s
  | .lockDtor cid wid sid now1 nowR nowWD => lockDtorP cid wid sid now1 nowR nowWD s
  | .unlockCtor e now => unlockCtorP e now s
  | .unlockDtor id now => unlockDtorP id now s

mutual
/-- A properly nested scoped usage: one scoped object with its body.  Each
constructor carries the clock readings consumed by the object's construction
and destruction. -/
inductive Item : Type where
  | scopeI : Nat → Items → Item
  | cpuI : Nat → Int → Int → Items → Item
  | wallI : Nat → Int → Int → Int → Int → Items → Item
  | lockI : Nat → Int → Int → Int → Int → Int → Int → Items → Item
  | unlockI : Nat → Int → Int → Items → Item
/-- A sequence of properly nested scoped usages. -/
inductive Items : Type where
  | nil : Items
  | cons : Item → Items → Items
end

mutual
/-- Execute one scoped object: construct it, run the body, destroy it.
Destruction happens on the object constructed at entry (its id is the value
of the fresh-id counter at entry), matching C++ scoped lifetimes. -/
def run : Item → State → Option State
  | .scopeI e body, s =>
      let sid := s.nextId
      match runList body (scopeCtorP e s) with
      | none => none
      | some s2 => scopeDtorP sid s2
  | .cpuI e n0 n1 body, s =>
      let cid := s.nextId
      match cpuCtorP e n0 s with
      | none => none
      | some s1 =>
          match runList body s1 with
          | none => none
          | some s2 => cpuDtorP cid n1 s2
  | .wallI e nP nW nR nWD body, s =>
      let wid := s.nextId
      match wallCtorP e nP nW s with
      | none => none
      | some s1 =>
          match runList body s1 with
          | none => none
          | some s2 => wallDtorP wid nR nWD s2
  | .lockI e nP nW n0 n1 nR nWD body, s =>
      let sid := s.nextId
      match lockCtorP e nP nW n0 s with
      | none => none
      | some s1 =>
          match runList body s1 with
          | none => none
          | some s2 => lockDtorP (sid + 2) (sid + 1) sid n1 nR nWD s2
  | .unlockI e nP nR body, s =>
      let pid := s.nextId
      match unlockCtorP e nP s with
      | none => none
      | some s1 =>
          match runList body s1 with
          | none => none
          | some s2 => unlockDtorP pid nR s2
/-- Execute a sequence of scoped usages left to right. -/
def runList : Items → State → Option State
  | .nil, s => some s
  | .cons it rest, s =>
      match run it s with
      | none => none
      | some s1 => runList rest s1
end

/-- The externally visible steps taken by `Executor::Lock`'s construction and
destruction, in order (executor.cc lines 74-99 and 115-121). -/
inductive Event where
  | setCur (e : Nat)
  | restoreCur
  | pauseCpu (t : Nat)
  | resumeCpu (t : Nat)
  | installWall (e : Nat)
  | flushWall (e : Nat)
  | acquireLocker
  | releaseLocker
  | installCpu (e : Nat)
  | uninstallCpu (e : Nat)
  | enterIsolateScope
  | exitIsolateScope
  | enterHandleScope
  | exitHandleScope
deriving Repr, DecidableEq

/-- Steps of `Executor::WallTimer::WallTimer` (executor.cc lines 74-86):
pause the captured thread CPU timer if any, then install self if outermost.
`captured` is the value of `cpu_timer_thread` at entry and `installs` records
whether `executor.wall_timer` was null. -/
def wallCtorEvents (captured : Option Nat) (installs : Bool) (e : Nat) : List Event :=
  (match captured with
   | none => []
   | some t => [Event.pauseCpu t]) ++
  (if installs then [Event.installWall e] else [])

/-- Steps of `Executor::WallTimer::~WallTimer` (executor.cc lines 88-99):
resume the captured CPU timer if any, then flush wall time if self was the
installed outer wall timer. -/
def wallDtorEvents (captured : Option Nat) (flushes : Bool) (e : Nat) : List Event :=
  (match captured with
   | none => []
   | some t => [Event.resumeCpu t]) ++
  (if flushes then [Event.flushWall e] else [])

/-- Steps of `Executor::Lock::Lock` (executor.cc lines 115-121), in member
construction order: `scope`, `wall_timer`, `locker`, `cpu_timer`,
`isolate_scope`, `handle_scope`. -/
def lockCtorEvents (captured : Option Nat) (installs : Bool) (e : Nat) : List Event :=
  [Event.setCur e] ++ wallCtorEvents captured installs e ++ [Event.acquireLocker] ++
  [Event.installCpu e] ++ [Event.enterIsolateScope, Event.enterHandleScope]

/-- Steps of `Executor::Lock`'s destruction: member destructors in reverse
declaration order (spec section 4.5, "Destruction runs in reverse"), with the
WallTimer destructor's own internal order from executor.cc lines 88-99. -/
def lockDtorEvents (captured : Option Nat) (flushes : Bool) (e : Nat) : List Event :=
  [Event.exitHandleScope, Event.exitIsolateScope] ++ [Event.uninstallCpu e] ++
  [Event.releaseLocker] ++ wallDtorEvents captured flushes e ++ [Event.restoreCur]

/-- The six members of `Executor::Lock` (executor.cc lines 115-121). -/
inductive Member where
  | scopeM
  | wallM
  | lockerM
  | cpuM
  | isolateScopeM
  | handleScopeM
deriving Repr, DecidableEq

/-- Member construction order of `Executor::Lock` (executor.cc lines
115-121). -/
def lockCtorMembers : List Member :=
  [Member.scopeM, Member.wallM, Member.lockerM, Member.cpuM,
   Member.isolateScopeM, Member.handleScopeM]

/-- Member destruction order of `Executor::Lock` (implicit destructor:
members destroyed in reverse construction order). -/
def lockDtorMembers : List Member :=
  [Member.handleScopeM, Member.isolateScopeM, Member.cpuM, Member.lockerM,
   Member.wallM, Member.scopeM]

/-- The four `timer_mutex`-guarded fields of `Executor` (spec section 3). -/
inductive TField where
  | cpuTimeF
  | wallTimeF
  | cpuTimerF
  | wallTimerF
deriving Repr, DecidableEq

/-- One read or write of a guarded `Executor` field: which executor, which
field, whether it is a write, and whether that executor's `timer_mutex` is
held at the access. -/
structure Access where
  exec : Nat
  field : TField
  write : Bool
  locked : Bool
deriving Repr, DecidableEq

/-- Field accesses of `Executor::CpuTimer::Pause` (executor.cc lines 41-47):
all under `timer_mutex`: read-modify-write of `cpu_time`, assert-read and
clear of `cpu_timer`. -/
def pauseAccesses (a : Nat) : List Access :=
  [⟨a, TField.cpuTimeF, false, true⟩, ⟨a, TField.cpuTimeF, true, true⟩,
   ⟨a, TField.cpuTimerF, false, true⟩, ⟨a, TField.cpuTimerF, true, true⟩]

/-- Field accesses of `Executor::CpuTimer::Resume` (executor.cc lines 49-55):
assert-read and reinstall of `cpu_timer`, under `timer_mutex`. -/
def resumeAccesses (a : Nat) : List Access :=
  [⟨a, TField.cpuTimerF, false, true⟩, ⟨a, TField.cpuTimerF, true, true⟩]

/-- Accesses of the conditional `Pause` call in `WallTimer` construction,
resolved against the state (the paused timer's executor may differ from the
wall timer's). -/
def pausePartAccesses (captured : Option Nat) (s : State) : List Access :=
  match captured with
  | none => []
  | some t =>
      match s.cpuT t with
      | none => []
      | some r => pauseAccesses r.exec

/-- Accesses of the conditional `Resume` call in `WallTimer` destruction. -/
def resumePartAccesses (captured : Option Nat) (s : State) : List Access :=
  match captured with
  | none => []
  | some t =>
      match s.cpuT t with
      | none => []
      | some r => resumeAccesses r.exec

/-- Field accesses of `Executor::CpuTimer::CpuTimer` (executor.cc lines
21-27): assert-read and install of `cpu_timer` under `timer_mutex`. -/
def cpuCtorAccesses (e : Nat) : List Access :=
  [⟨e, TField.cpuTimerF, false, true⟩, ⟨e, TField.cpuTimerF, true, true⟩]

/-- Field accesses of `Executor::CpuTimer::~CpuTimer` (executor.cc lines
29-35): read-modify-write of `cpu_time`, assert-read and clear of
`cpu_timer`, all under `timer_mutex`. -/
def cpuDtorAccesses (a : Nat) : List Access :=
  [⟨a, TField.cpuTimeF, false, true⟩, ⟨a, TField.cpuTimeF, true, true⟩,
   ⟨a, TField.cpuTimerF, false, true⟩, ⟨a, TField.cpuTimerF, true, true⟩]

/-- Field accesses of `Executor::WallTimer::WallTimer` (executor.cc lines
74-86): the conditional `Pause`, then the guard read of `wall_timer` at line
81 which happens before the `lock_guard` at line 82 (so with `timer_mutex`
not held), then the locked install when the guard saw null. -/
def wallCtorAccesses (e : Nat) (s : State) : List Access :=
  pausePartAccesses s.cpu_timer_thread s ++
  [⟨e, TField.wallTimerF, false, false⟩] ++
  (if (s.execs e).wall_timer = none then [⟨e, TField.wallTimerF, true, true⟩] else [])

/-- Field accesses of `Executor::WallTimer::~WallTimer` (executor.cc lines
88-99): the conditional `Resume`, then the guard read of `wall_timer` at line
94 before the `lock_guard` at line 95 (with `timer_mutex` not held), then the
locked clear of `wall_timer` and read-modify-write of `wall_time` when the
guard matched. -/
def wallDtorAccesses (id : Nat) (s : State) : List Access :=
  match s.wallT id with
  | none => []
  | some r =>
      resumePartAccesses r.cpu_timer s ++
      [⟨r.exec, TField.wallTimerF, false, false⟩] ++
      (if (s.execs r.exec).wall_timer = some id then
        [⟨r.exec, TField.wallTimerF, true, true⟩,
         ⟨r.exec, TField.wallTimeF, false, true⟩,
         ⟨r.exec, TField.wallTimeF, true, true⟩]
       else [])

/-- Field accesses of `Executor::Unlock::Unlock` (executor.cc line 126): the
member initializer `pause_scope{env.executor.cpu_timer}` reads `cpu_timer`
with no `timer_mutex`, then the pause scope pauses that timer (locked). -/
def unlockCtorAccesses (e : Nat) (s : State) : List Access :=
  [⟨e, TField.cpuTimerF, false, false⟩] ++
  pausePartAccesses (s.execs e).cpu_timer s

/-- Field accesses of `Executor::Unlock`'s destruction: the resume of the
captured timer. -/
def unlockDtorAccesses (id : Nat) (s : State) : List Access :=
  match s.pauses id with
  | none => []
  | some r => resumePartAccesses r.cpu_timer s

/-- All guarded-field accesses performed by one operation of the core,
resolved against the state it runs in.  `Executor` construction and `Scope`
touch none of the four fields. -/
def opAccesses (op : Op) (s : State) : List Access :=
  match op with
  | .execCtor _ _ => []
  | .cpuCtor e _ => cpuCtorAccesses e
  | .cpuDtor id _ =>
      match s.cpuT id with
      | none => []
      | some r => cpuDtorAccesses r.exec
  | .cpuPause id _ =>
      match s.cpuT id with
      | none => []
      | some r => pauseAccesses r.exec
  | .cpuResume id _ =>
      match s.cpuT id with
      | none => []
      | some r => resumeAccesses r.exec
  | .wallCtor e _ _ => wallCtorAccesses e s
  | .wallDtor id _ _ => wallDtorAccesses id s
  | .scopeCtor _ => []
  | .scopeDtor _ => []
  | .lockCtor e _ _ _ => wallCtorAccesses e s ++ cpuCtorAccesses e
  | .lockDtor cid wid _ _ _ _ =>
      (match s.cpuT cid with
       | none => []
       | some r => cpuDtorAccesses r.exec) ++ wallDtorAccesses wid s
  | .unlockCtor e _ => unlockCtorAccesses e s
  | .unlockDtor id _ => unlockDtorAccesses id s

/-- Nested entry of the same isolate on one thread: `Lock(E)` constructed
inside `Lock(E)` (executor ids, object ids and clock values all concrete). -/
def nested2 : Option State :=
  Option.bind (lockCtorP 0 1 2 3 s0) (lockCtorP 0 11 12 13)

/-- A concrete state with CpuTimer 0 installed on executor 0 (the state
reached by constructing a CpuTimer on executor 0 at time 2 from the empty
state). -/
def c2s : State :=
  { s0 with
    cpuT := setf s0.cpuT 0 (some { exec := 0, last := none, time := 2 })
    cpu_timer_thread := some 0
    nextId := 1
    execs := setf s0.execs 0 { ExecRec.init with cpu_timer := some 0 } }

/-- The state after pausing that timer at time 5. -/
def c2s' : State := (cpuPauseP 0 5 c2s).getD s0

/-- The nested-lock state of `nested2`, extracted. -/
def c4s : State := nested2.getD s0

/-- The state after constructing one more WallTimer on executor 0 there. -/
def c4s' : State := (wallCtorP 0 31 32 c4s).getD s0

/-- The per-operation clock hypotheses of monotonicity: each clock value an
operation subtracts a stored timer start from is at least that stored value
(this is what a non-decreasing `Now()` / steady clock guarantees, since every
stored `time` is an earlier clock reading). -/
def deltasOK (op : Op) (s : State) : Prop :=
  match op with
  | .execCtor selfId _ => s.execs selfId = ExecRec.init
  | .cpuCtor _ _ => True
  | .cpuDtor id now => ∀ r, s.cpuT id = some r → r.time ≤ now
  | .cpuPause id now => ∀ r, s.cpuT id = some r → r.time ≤ now
  | .cpuResume _ _ => True
  | .wallCtor _ nowP _ =>
      ∀ t r, s.cpu_timer_thread = some t → s.cpuT t = some r → r.time ≤ nowP
  | .wallDtor id _ nowW => ∀ r, s.wallT id = some r → r.time ≤ nowW
  | .scopeCtor _ => True
  | .scopeDtor _ => True
  | .lockCtor _ nowP _ _ =>
      ∀ t r, s.cpu_timer_thread = some t → s.cpuT t = some r → r.time ≤ nowP
  | .lockDtor cid wid _ now1 _ nowWD =>
      (∀ r, s.cpuT cid = some r → r.time ≤ now1) ∧
      (∀ r, s.wallT wid = some r → r.time ≤ nowWD)
  | .unlockCtor e now =>
      ∀ t r, (s.execs e).cpu_timer = some t → s.cpuT t = some r → r.time ≤ now
  | .unlockDtor _ _ => True

/-- Both accumulated totals of every executor, before ≤ after. -/
def TimesMono (s s' : State) : Prop :=
  ∀ f, (s.execs f).cpu_time ≤ (s'.execs f).cpu_time ∧
       (s.execs f).wall_time ≤ (s'.execs f).wall_time

/-- The state after destroying the installed timer of `c2s` at time 5. -/
def c6s : State := (step (Op.cpuDtor 0 5) c2s).getD s0

/-- The thread-local invariant of C10: a current executor is installed and
every live `Scope` saved a non-null previous value. -/
def CurInv (s : State) : Prop :=
  s.current_executor ≠ none ∧
  ∀ id r, s.scopes id = some r → r.last ≠ none

/-- The identity-relevant part of a live CpuTimer record: its executor and
saved stack link (its `time` may be refreshed by `Resume`). -/
def cpuKey (o : Option CpuTimerRec) : Option (Nat × Option Nat) :=
  o.map fun r => (r.exec, r.last)

/-- What a balanced group of scopes preserves: the thread-local slots, and
every object that was alive on entry (CpuTimers keep their executor and stack
link; wall timers, scopes and pause scopes are untouched). -/
def Frame (s s' : State) : Prop :=
  s.nextId ≤ s'.nextId ∧
  s'.cpu_timer_thread = s.cpu_timer_thread ∧
  s'.current_executor = s.current_executor ∧
  ∀ id, id < s.nextId →
    cpuKey (s'.cpuT id) = cpuKey (s.cpuT id) ∧
    s'.wallT id = s.wallT id ∧
    s'.scopes id = s.scopes id ∧
    s'.pauses id = s.pauses id

/-- The nested same-isolate scenario as a properly nested tree:
`Lock(0)` containing `Lock(0)`. -/
def c7tree : Items :=
  Items.cons
    (Item.lockI 0 1 2 3 30 31 32
      (Items.cons (Item.lockI 0 11 12 13 20 21 22 Items.nil) Items.nil))
    Items.nil

/-- The state after running the nested tree from the empty state. -/
def c7s : State := (runList c7tree s0).getD s0

/-- Ids at or above the allocation counter are unused in every store. -/
def Fresh (s : State) : Prop :=
  ∀ id, s.nextId ≤ id →
    s.cpuT id = none ∧ s.wallT id = none ∧ s.scopes id = none ∧ s.pauses id = none

mutual
/-- A tree consisting solely of `Lock` scopes (the composite scoped
acquisition the core prescribes), properly nested. -/
def lockOnly : Item → Bool
  | .lockI _ _ _ _ _ _ _ body => lockOnlyList body
  | _ => false
/-- A sequence of `Lock`-only trees. -/
def lockOnlyList : Items → Bool
  | .nil => true
  | .cons it rest => lockOnly it && lockOnlyList rest
end

/-- The thread head timer, when present, is live and installed on its
executor. -/
def HeadInv (s : State) : Prop :=
  ∀ t, s.cpu_timer_thread = some t →
    ∃ r, s.cpuT t = some r ∧ (s.execs r.exec).cpu_timer = some t

/-- Any installed timer is the thread head and belongs to that executor. -/
def InstInv (s : State) : Prop :=
  ∀ e t, (s.execs e).cpu_timer = some t →
    s.cpu_timer_thread = some t ∧ ∃ r, s.cpuT t = some r ∧ r.exec = e

/-- The single-thread consistency invariant between operations. -/
def Inv (s : State) : Prop := Fresh s ∧ HeadInv s ∧ InstInv s

mutual
/-- A tree consisting solely of `Lock` scopes none of which targets
executor `A`. -/
def locksAvoid : Item → Nat → Bool
  | .lockI e _ _ _ _ _ _ body, A => decide (e ≠ A) && locksAvoidList body A
  | _, _ => false
/-- A sequence of `Lock`-only trees avoiding executor `A`. -/
def locksAvoidList : Items → Nat → Bool
  | .nil, _ => true
  | .cons it rest, A => locksAvoid it A && locksAvoidList rest A
end

/-- No CpuTimer on the thread's head slot charges executor `A`. -/
def HeadAvoid (s : State) (A : Nat) : Prop :=
  ∀ t r, s.cpu_timer_thread = some t → s.cpuT t = some r → r.exec ≠ A

/-- The state on thread T inside `Lock(1)` entered after `Lock(0)`: the
timer of executor 0 (id 2) is paused, the head timer (id 5) charges
executor 1. -/
def c5s : State :=
  (Option.bind (lockCtorP 0 1 2 3 s0) (lockCtorP 1 11 12 13)).getD s0

/-- A further nested Lock of executor 1 (avoiding executor 0). -/
def c5items : Items :=
  Items.cons (Item.lockI 1 31 32 33 41 42 43 Items.nil) Items.nil

theorem setf_same {α : Type} (f : Nat → α) (i : Nat) (v : α) : setf f i v i = v := by
  simp [setf]

theorem setf_other {α : Type} (f : Nat → α) (i j : Nat) (v : α) (h : j ≠ i) :
    setf f i v j = f j := by
  simp [setf, h]

theorem cpuCtorP_some {e : Nat} {now : Int} {s s' : State}
    (h : cpuCtorP e now s = some s') :
    (s.execs e).cpu_timer = none ∧
    s' = { s with
           cpuT := setf s.cpuT s.nextId
             (some { exec := e, last := s.cpu_timer_thread, time := now })
           cpu_timer_thread := some s.nextId
           nextId := s.nextId + 1
           execs := setf s.execs e { s.execs e with cpu_timer := some s.nextId } } := by
  by_cases hc : (s.execs e).cpu_timer = none
  · refine ⟨hc, ?_⟩
    simp only [cpuCtorP, if_pos hc, Option.some.injEq] at h
    exact h.symm
  · simp [cpuCtorP, if_neg hc] at h

theorem cpuDtorP_some {id : Nat} {now : Int} {s s' : State}
    (h : cpuDtorP id now s = some s') :
    ∃ r, s.cpuT id = some r ∧ (s.execs r.exec).cpu_timer = some id ∧
    s' = { s with
           cpu_timer_thread := r.last
           cpuT := setf s.cpuT id none
           execs := setf s.execs r.exec
             { s.execs r.exec with
               cpu_time := (s.execs r.exec).cpu_time + (now - r.time)
               cpu_timer := none } } := by
  cases hm : s.cpuT id with
  | none => simp [cpuDtorP, hm] at h
  | some r =>
      by_cases hc : (s.execs r.exec).cpu_timer = some id
      · refine ⟨r, rfl, hc, ?_⟩
        simp only [cpuDtorP, hm, if_pos hc, Option.some.injEq] at h
        exact h.symm
      · simp [cpuDtorP, hm, if_neg hc] at h

theorem cpuPauseP_some {id : Nat} {now : Int} {s s' : State}
    (h : cpuPauseP id now s = some s') :
    ∃ r, s.cpuT id = some r ∧ (s.execs r.exec).cpu_timer = some id ∧
    s' = { s with
           execs := setf s.execs r.exec
             { s.execs r.exec with
               cpu_time := (s.execs r.exec).cpu_time + (now - r.time)
               cpu_timer := none
               holder_paused := true } } := by
  cases hm : s.cpuT id with
  | none => simp [cpuPauseP, hm] at h
  | some r =>
      by_cases hc : (s.execs r.exec).cpu_timer = some id
      · refine ⟨r, rfl, hc, ?_⟩
        simp only [cpuPauseP, hm, if_pos hc, Option.some.injEq] at h
        exact h.symm
      · simp [cpuPauseP, hm, if_neg hc] at h

theorem cpuResumeP_some {id : Nat} {now : Int} {s s' : State}
    (h : cpuResumeP id now s = some s') :
    ∃ r, s.cpuT id = some r ∧ (s.execs r.exec).cpu_timer = none ∧
    s' = { s with
           cpuT := setf s.cpuT id (some { r with time := now })
           execs := setf s.execs r.exec
             { s.execs r.exec with cpu_timer := some id, holder_paused := false } } := by
  cases hm : s.cpuT id with
  | none => simp [cpuResumeP, hm] at h
  | some r =>
      by_cases hc : (s.execs r.exec).cpu_timer = none
      · refine ⟨r, rfl, hc, ?_⟩
        simp only [cpuResumeP, hm, if_pos hc, Option.some.injEq] at h
        exact h.symm
      · simp [cpuResumeP, hm, if_neg hc] at h

theorem scopeDtorP_some {id : Nat} {s s' : State}
    (h : scopeDtorP id s = some s') :
    ∃ r, s.scopes id = some r ∧
    s' = { s with scopes := setf s.scopes id none, current_executor := r.last } := by
  cases hm : s.scopes id with
  | none => simp [scopeDtorP, hm] at h
  | some r =>
      refine ⟨r, rfl, ?_⟩
      simp only [scopeDtorP, hm, Option.some.injEq] at h
      exact h.symm

theorem wallCtorP_some {e : Nat} {nowP nowW : Int} {s s' : State}
    (h : wallCtorP e nowP nowW s = some s') :
    ∃ s1, pausePart s.cpu_timer_thread nowP s = some s1 ∧
      s' = wallInstallP e s.cpu_timer_thread nowW s1 := by
  cases hm : pausePart s.cpu_timer_thread nowP s with
  | none => simp [wallCtorP, hm] at h
  | some s1 =>
      refine ⟨s1, rfl, ?_⟩
      simp only [wallCtorP, hm, Option.some.injEq] at h
      exact h.symm

theorem wallDtorP_some {id : Nat} {nowR nowW : Int} {s s' : State}
    (h : wallDtorP id nowR nowW s = some s') :
    ∃ r s1, s.wallT id = some r ∧ resumePart r.cpu_timer nowR s = some s1 ∧
      s' = wallFlushP id r nowW s1 := by
  cases hm : s.wallT id with
  | none => simp [wallDtorP, hm] at h
  | some r =>
      cases hm2 : resumePart r.cpu_timer nowR s with
      | none => simp [wallDtorP, hm, hm2] at h
      | some s1 =>
          refine ⟨r, s1, rfl, hm2, ?_⟩
          simp only [wallDtorP, hm, hm2, Option.some.injEq] at h
          exact h.symm

theorem unlockCtorP_some {e : Nat} {now : Int} {s s' : State}
    (h : unlockCtorP e now s = some s') :
    ∃ s1, pausePart (s.execs e).cpu_timer now s = some s1 ∧
      s' = { s1 with
             pauses := setf s1.pauses s1.nextId (some { cpu_timer := (s.execs e).cpu_timer })
             nextId := s1.nextId + 1 } := by
  cases hm : pausePart (s.execs e).cpu_timer now s with
  | none => simp [unlockCtorP, hm] at h
  | some s1 =>
      refine ⟨s1, rfl, ?_⟩
      simp only [unlockCtorP, hm, Option.some.injEq] at h
      exact h.symm

theorem unlockDtorP_some {id : Nat} {now : Int} {s s' : State}
    (h : unlockDtorP id now s = some s') :
    ∃ r s1, s.pauses id = some r ∧ resumePart r.cpu_timer now s = some s1 ∧
      s' = { s1 with pauses := setf s1.pauses id none } := by
  cases hm : s.pauses id with
  | none => simp [unlockDtorP, hm] at h
  | some r =>
      cases hm2 : resumePart r.cpu_timer now s with
      | none => simp [unlockDtorP, hm, hm2] at h
      | some s1 =>
          refine ⟨r, s1, rfl, hm2, ?_⟩
          simp only [unlockDtorP, hm, hm2, Option.some.injEq] at h
          exact h.symm

theorem lockCtorP_some {e : Nat} {nowP nowW now0 : Int} {s s' : State}
    (h : lockCtorP e nowP nowW now0 s = some s') :
    ∃ s2, wallCtorP e nowP nowW (scopeCtorP e s) = some s2 ∧
      cpuCtorP e now0 s2 = some s' := by
  cases hm : wallCtorP e nowP nowW (scopeCtorP e s) with
  | none => simp [lockCtorP, hm] at h
  | some s2 =>
      refine ⟨s2, rfl, ?_⟩
      simpa only [lockCtorP, hm] using h

theorem lockDtorP_some {cid wid sid : Nat} {now1 nowR nowWD : Int} {s s' : State}
    (h : lockDtorP cid wid sid now1 nowR nowWD s = some s') :
    ∃ s1 s2, cpuDtorP cid now1 s = some s1 ∧ wallDtorP wid nowR nowWD s1 = some s2 ∧
      scopeDtorP sid s2 = some s' := by
  cases hm : cpuDtorP cid now1 s with
  | none => simp [lockDtorP, hm] at h
  | some s1 =>
      cases hm2 : wallDtorP wid nowR nowWD s1 with
      | none => simp [lockDtorP, hm, hm2] at h
      | some s2 =>
          refine ⟨s1, s2, rfl, hm2, ?_⟩
          simpa only [lockDtorP, hm, hm2] using h

theorem pausePart_some {captured : Option Nat} {now : Int} {s s' : State}
    (h : pausePart captured now s = some s') :
    (captured = none ∧ s' = s) ∨
    (∃ t, captured = some t ∧ cpuPauseP t now s = some s') := by
  cases captured with
  | none => exact Or.inl ⟨rfl, (Option.some.inj h).symm⟩
  | some t => exact Or.inr ⟨t, rfl, h⟩

theorem resumePart_some {captured : Option Nat} {now : Int} {s s' : State}
    (h : resumePart captured now s = some s') :
    (captured = none ∧ s' = s) ∨
    (∃ t, captured = some t ∧ cpuResumeP t now s = some s') := by
  cases captured with
  | none => exact Or.inl ⟨rfl, (Option.some.inj h).symm⟩
  | some t => exact Or.inr ⟨t, rfl, h⟩

theorem setf_preserve {α : Type} (p : ExecRec → α) (g : Nat → ExecRec) (i : Nat)
    (v : ExecRec) (hv : p v = p (g i)) (f : Nat) : p (setf g i v f) = p (g f) := by
  by_cases hf : f = i
  · subst hf; rw [setf_same, hv]
  · rw [setf_other _ _ _ _ hf]

/-- Pausing a CPU timer does not touch any executor's wall fields, nor the
wall-timer store, the scope store, the id counter or the thread locals. -/
theorem cpuPauseP_wall_frame {id : Nat} {now : Int} {s s' : State}
    (h : cpuPauseP id now s = some s') :
    (∀ f, (s'.execs f).wall_timer = (s.execs f).wall_timer ∧
          (s'.execs f).wall_time = (s.execs f).wall_time) ∧
    s'.wallT = s.wallT ∧ s'.nextId = s.nextId ∧
    s'.cpu_timer_thread = s.cpu_timer_thread ∧
    s'.current_executor = s.current_executor := by
  obtain ⟨r, _, _, rfl⟩ := cpuPauseP_some h
  refine ⟨fun f => ⟨?_, ?_⟩, rfl, rfl, rfl, rfl⟩ <;>
    · by_cases hf : f = r.exec
      · subst hf; simp [setf_same]
      · simp [setf_other _ _ _ _ hf]

/-- Resuming a CPU timer does not touch any executor's wall fields, nor the
wall-timer store, the id counter or the thread locals. -/
theorem cpuResumeP_wall_frame {id : Nat} {now : Int} {s s' : State}
    (h : cpuResumeP id now s = some s') :
    (∀ f, (s'.execs f).wall_timer = (s.execs f).wall_timer ∧
          (s'.execs f).wall_time = (s.execs f).wall_time) ∧
    s'.wallT = s.wallT ∧ s'.nextId = s.nextId ∧
    s'.cpu_timer_thread = s.cpu_timer_thread ∧
    s'.current_executor = s.current_executor := by
  obtain ⟨r, _, _, rfl⟩ := cpuResumeP_some h
  refine ⟨fun f => ⟨?_, ?_⟩, rfl, rfl, rfl, rfl⟩ <;>
    · by_cases hf : f = r.exec
      · subst hf; simp [setf_same]
      · simp [setf_other _ _ _ _ hf]

theorem pausePart_wall_frame {c : Option Nat} {now : Int} {s s' : State}
    (h : pausePart c now s = some s') :
    (∀ f, (s'.execs f).wall_timer = (s.execs f).wall_timer ∧
          (s'.execs f).wall_time = (s.execs f).wall_time) ∧
    s'.wallT = s.wallT ∧ s'.nextId = s.nextId ∧
    s'.cpu_timer_thread = s.cpu_timer_thread ∧
    s'.current_executor = s.current_executor := by
  rcases pausePart_some h with ⟨_, rfl⟩ | ⟨t, _, hpp⟩
  · exact ⟨fun f => ⟨rfl, rfl⟩, rfl, rfl, rfl, rfl⟩
  · exact cpuPauseP_wall_frame hpp

theorem resumePart_wall_frame {c : Option Nat} {now : Int} {s s' : State}
    (h : resumePart c now s = some s') :
    (∀ f, (s'.execs f).wall_timer = (s.execs f).wall_timer ∧
          (s'.execs f).wall_time = (s.execs f).wall_time) ∧
    s'.wallT = s.wallT ∧ s'.nextId = s.nextId ∧
    s'.cpu_timer_thread = s.cpu_timer_thread ∧
    s'.current_executor = s.current_executor := by
  rcases resumePart_some h with ⟨_, rfl⟩ | ⟨t, _, hpp⟩
  · exact ⟨fun f => ⟨rfl, rfl⟩, rfl, rfl, rfl, rfl⟩
  · exact cpuResumeP_wall_frame hpp

/-- C9: `Executor` construction captures the currently-current executor as
`default_executor`: with no current executor the new one becomes its own
default and records the constructing thread; otherwise it records the current
executor as default and inherits that executor's `default_thread` (so all
descendants chain to a common root thread identity). -/
theorem C9_executor_ctor_defaults (selfId threadId : Nat) (s : State) :
    (s.current_executor = none →
      ((execCtorP selfId threadId s).execs selfId).default_executor = selfId ∧
      ((execCtorP selfId threadId s).execs selfId).default_thread = threadId ∧
      (execCtorP selfId threadId s).current_executor = some selfId) ∧
    (∀ c, s.current_executor = some c →
      ((execCtorP selfId threadId s).execs selfId).default_executor = c ∧
      ((execCtorP selfId threadId s).execs selfId).default_thread =
        (s.execs c).default_thread) := by
  constructor
  · intro hc
    simp [execCtorP, hc, setf_same]
  · intro c hc
    simp [execCtorP, hc, setf_same]

/-- C9 witness: concrete instances of both construction branches. -/
theorem C9_executor_ctor_defaults_witness :
    (s0.current_executor = none ∧
      ((execCtorP 7 3 s0).execs 7).default_executor = 7 ∧
      ((execCtorP 7 3 s0).execs 7).default_thread = 3 ∧
      (execCtorP 7 3 s0).current_executor = some 7) ∧
    ((execCtorP 7 3 s0).current_executor = some 7 ∧
      ((execCtorP 9 4 (execCtorP 7 3 s0)).execs 9).default_executor = 7 ∧
      ((execCtorP 9 4 (execCtorP 7 3 s0)).execs 9).default_thread =
        ((execCtorP 7 3 s0).execs 7).default_thread) :=
  ⟨⟨rfl, (C9_executor_ctor_defaults 7 3 s0).1 rfl⟩,
   ⟨rfl, (C9_executor_ctor_defaults 9 4 (execCtorP 7 3 s0)).2 7 rfl⟩⟩

/-- C1: in `Lock` construction, when the thread has a current CPU timer, that
timer's `Pause` happens strictly before the isolate locker is acquired, and
the new `CpuTimer` is installed strictly after the locker is held; the
destructor's member steps run in the reverse of the constructor's member
order, so the uninstall precedes the locker release which precedes the
`Resume` of the captured timer. -/
theorem C1_lock_order (captured : Option Nat) (t : Nat) (installs flushes : Bool)
    (e : Nat) (h : captured = some t) :
    (∃ pre post, lockCtorEvents captured installs e =
        pre ++ [Event.acquireLocker] ++ post ∧
      Event.pauseCpu t ∈ pre ∧ Event.installCpu e ∈ post) ∧
    (∃ pre post, lockDtorEvents captured flushes e =
        pre ++ [Event.releaseLocker] ++ post ∧
      Event.uninstallCpu e ∈ pre ∧ Event.resumeCpu t ∈ post) ∧
    lockDtorMembers = lockCtorMembers.reverse := by
  subst h
  refine ⟨⟨[Event.setCur e] ++ wallCtorEvents (some t) installs e,
           [Event.installCpu e] ++ [Event.enterIsolateScope, Event.enterHandleScope],
           ?_, ?_, ?_⟩,
          ⟨[Event.exitHandleScope, Event.exitIsolateScope] ++ [Event.uninstallCpu e],
           wallDtorEvents (some t) flushes e ++ [Event.restoreCur], ?_, ?_, ?_⟩, ?_⟩
  · simp [lockCtorEvents]
  · simp [wallCtorEvents]
  · simp
  · simp [lockDtorEvents]
  · simp
  · simp [wallDtorEvents]
  · rfl

/-- C1 witness: the orderings at a concrete captured timer. -/
theorem C1_lock_order_witness :
    (some 4 : Option Nat) = some 4 ∧
    (∃ pre post, lockCtorEvents (some 4) true 0 =
        pre ++ [Event.acquireLocker] ++ post ∧
      Event.pauseCpu 4 ∈ pre ∧ Event.installCpu 0 ∈ post) :=
  ⟨rfl, (C1_lock_order (some 4) 4 true true 0 rfl).1⟩

/-- C2 fails as stated: after `Lock(0)` nested inside `Lock(0)`, the inner
CpuTimer (id 5) is live and installed as executor 0's `cpu_timer`, charging
it, while executor 0's quota `timer_holder` is still paused (it was paused
when the inner WallTimer paused the outer CpuTimer and nothing resumed
it). -/
theorem C2_counterexample :
    (nested2.map fun s =>
      ((s.execs 0).cpu_timer, (s.cpuT 5).isSome, (s.execs 0).holder_paused)) =
      some (some 5, true, true) := by
  decide

/-- C2 amended: the quota `timer_holder` is paused exactly by `Pause` (which
also clears `cpu_timer`) and resumed exactly by `Resume` (which also
reinstalls); `CpuTimer` construction and destruction leave every executor's
`timer_holder` state unchanged, so across nested `Lock(E)` within `Lock(E)`
the inner CpuTimer runs with `E`'s timer_holder still paused. -/
theorem C2_amended :
    (∀ (id : Nat) (now : Int) (s s' : State) (r : CpuTimerRec),
      cpuPauseP id now s = some s' → s.cpuT id = some r →
      (s'.execs r.exec).holder_paused = true ∧ (s'.execs r.exec).cpu_timer = none) ∧
    (∀ (id : Nat) (now : Int) (s s' : State) (r : CpuTimerRec),
      cpuResumeP id now s = some s' → s.cpuT id = some r →
      (s'.execs r.exec).holder_paused = false ∧
      (s'.execs r.exec).cpu_timer = some id) ∧
    (∀ (e : Nat) (now : Int) (s s' : State),
      cpuCtorP e now s = some s' →
      ∀ f, (s'.execs f).holder_paused = (s.execs f).holder_paused) ∧
    (∀ (id : Nat) (now : Int) (s s' : State),
      cpuDtorP id now s = some s' →
      ∀ f, (s'.execs f).holder_paused = (s.execs f).holder_paused) := by
  refine ⟨?_, ?_, ?_, ?_⟩
  · intro id now s s' r h hr
    obtain ⟨r', hr', _, rfl⟩ := cpuPauseP_some h
    rw [hr] at hr'
    cases hr'
    simp [setf_same]
  · intro id now s s' r h hr
    obtain ⟨r', hr', _, rfl⟩ := cpuResumeP_some h
    rw [hr] at hr'
    cases hr'
    simp [setf_same]
  · intro e now s s' h f
    obtain ⟨_, rfl⟩ := cpuCtorP_some h
    by_cases hf : f = e
    · subst hf; simp [setf_same]
    · simp [setf_other _ _ _ _ hf]
  · intro id now s s' h f
    obtain ⟨r, _, _, rfl⟩ := cpuDtorP_some h
    by_cases hf : f = r.exec
    · subst hf; simp [setf_same]
    · simp [setf_other _ _ _ _ hf]

/-- C2 amended witness: Pause at a concrete state pauses the holder and
clears the installed timer. -/
theorem C2_amended_witness :
    cpuPauseP 0 5 c2s = some c2s' ∧
    c2s.cpuT 0 = some { exec := 0, last := none, time := 2 } ∧
    (c2s'.execs 0).holder_paused = true ∧ (c2s'.execs 0).cpu_timer = none := by
  have h1 : cpuPauseP 0 5 c2s = some c2s' := rfl
  have h2 : c2s.cpuT 0 = some { exec := 0, last := none, time := 2 } := rfl
  have h3 := C2_amended.1 0 5 c2s c2s' { exec := 0, last := none, time := 2 } h1 h2
  exact ⟨h1, h2, h3.1, h3.2⟩

theorem mem_pauseAccesses_locked {a : Access} {x : Nat}
    (h : a ∈ pauseAccesses x) : a.locked = true := by
  simp [pauseAccesses] at h
  rcases h with rfl | rfl | rfl | rfl <;> rfl

theorem mem_resumeAccesses_locked {a : Access} {x : Nat}
    (h : a ∈ resumeAccesses x) : a.locked = true := by
  simp [resumeAccesses] at h
  rcases h with rfl | rfl <;> rfl

theorem mem_cpuCtorAccesses_locked {a : Access} {x : Nat}
    (h : a ∈ cpuCtorAccesses x) : a.locked = true := by
  simp [cpuCtorAccesses] at h
  rcases h with rfl | rfl <;> rfl

theorem mem_cpuDtorAccesses_locked {a : Access} {x : Nat}
    (h : a ∈ cpuDtorAccesses x) : a.locked = true := by
  simp [cpuDtorAccesses] at h
  rcases h with rfl | rfl | rfl | rfl <;> rfl

theorem mem_pausePartAccesses_locked {a : Access} {c : Option Nat} {s : State}
    (h : a ∈ pausePartAccesses c s) : a.locked = true := by
  rcases c with _ | t
  · simp [pausePartAccesses] at h
  · rcases hm : s.cpuT t with _ | r
    · simp [pausePartAccesses, hm] at h
    · simp only [pausePartAccesses, hm] at h
      exact mem_pauseAccesses_locked h

theorem mem_resumePartAccesses_locked {a : Access} {c : Option Nat} {s : State}
    (h : a ∈ resumePartAccesses c s) : a.locked = true := by
  rcases c with _ | t
  · simp [resumePartAccesses] at h
  · rcases hm : s.cpuT t with _ | r
    · simp [resumePartAccesses, hm] at h
    · simp only [resumePartAccesses, hm] at h
      exact mem_resumeAccesses_locked h

/-- Every access in a `WallTimer` construction is locked except its guard
read of `wall_timer`. -/
theorem mem_wallCtorAccesses {a : Access} {e : Nat} {s : State}
    (h : a ∈ wallCtorAccesses e s) :
    a.locked = true ∨
    (a.locked = false ∧ a.write = false ∧ a.field = TField.wallTimerF) := by
  simp only [wallCtorAccesses] at h
  rw [List.mem_append, List.mem_append] at h
  rcases h with (h | h) | h
  · exact Or.inl (mem_pausePartAccesses_locked h)
  · simp at h
    subst h
    exact Or.inr ⟨rfl, rfl, rfl⟩
  · by_cases hc : (s.execs e).wall_timer = none
    · rw [if_pos hc] at h
      simp at h
      subst h
      exact Or.inl rfl
    · rw [if_neg hc] at h
      simp at h

/-- Every access in a `WallTimer` destruction is locked except its guard read
of `wall_timer`. -/
theorem mem_wallDtorAccesses {a : Access} {id : Nat} {s : State}
    (h : a ∈ wallDtorAccesses id s) :
    a.locked = true ∨
    (a.locked = false ∧ a.write = false ∧ a.field = TField.wallTimerF) := by
  rcases hm : s.wallT id with _ | r
  · simp [wallDtorAccesses, hm] at h
  · simp only [wallDtorAccesses, hm] at h
    rw [List.mem_append, List.mem_append] at h
    rcases h with (h | h) | h
    · exact Or.inl (mem_resumePartAccesses_locked h)
    · simp at h
      subst h
      exact Or.inr ⟨rfl, rfl, rfl⟩
    · by_cases hc : (s.execs r.exec).wall_timer = some id
      · rw [if_pos hc] at h
        simp at h
        rcases h with rfl | rfl | rfl <;> exact Or.inl rfl
      · rw [if_neg hc] at h
        simp at h

/-- Every access in an `Unlock` construction is locked except its initial
read of `cpu_timer`. -/
theorem mem_unlockCtorAccesses {a : Access} {e : Nat} {s : State}
    (h : a ∈ unlockCtorAccesses e s) :
    a.locked = true ∨
    (a.locked = false ∧ a.write = false ∧ a.field = TField.cpuTimerF) := by
  simp only [unlockCtorAccesses] at h
  rw [List.mem_append] at h
  rcases h with h | h
  · simp at h
    subst h
    exact Or.inr ⟨rfl, rfl, rfl⟩
  · exact Or.inl (mem_pausePartAccesses_locked h)

theorem mem_unlockDtorAccesses_locked {a : Access} {id : Nat} {s : State}
    (h : a ∈ unlockDtorAccesses id s) : a.locked = true := by
  rcases hm : s.pauses id with _ | r
  · simp [unlockDtorAccesses, hm] at h
  · simp only [unlockDtorAccesses, hm] at h
    exact mem_resumePartAccesses_locked h

/-- C3 fails as stated: constructing a `WallTimer` on executor 0 in the empty
state reads that executor's `wall_timer` field (the guard at executor.cc line
81) without holding `timer_mutex`. -/
theorem C3_counterexample :
    (⟨0, TField.wallTimerF, false, false⟩ : Access) ∈
      opAccesses (Op.wallCtor 0 1 2) s0 ∧
    (⟨0, TField.wallTimerF, false, false⟩ : Access).locked = false := by
  constructor
  · show _ ∈ wallCtorAccesses 0 s0
    unfold wallCtorAccesses
    simp [pausePartAccesses, s0]
  · rfl

/-- C3 amended: every write of the four guarded fields and every read of
`cpu_time` / `wall_time` happens under `timer_mutex`; the only unlocked
accesses are reads, namely the `wall_timer` guard reads in WallTimer
construction and destruction (executor.cc lines 81 and 94, also reached
through Lock) and the `cpu_timer` read in Unlock construction (line 126). -/
theorem C3_amended (op : Op) (s : State) (a : Access) (h : a ∈ opAccesses op s) :
    (a.write = true → a.locked = true) ∧
    (a.locked = false →
      a.write = false ∧ (a.field = TField.wallTimerF ∨ a.field = TField.cpuTimerF)) ∧
    (a.locked = false → a.field = TField.cpuTimerF →
      ∃ e now, op = Op.unlockCtor e now) := by
  have locked_case : a.locked = true →
      (a.write = true → a.locked = true) ∧
      (a.locked = false →
        a.write = false ∧ (a.field = TField.wallTimerF ∨ a.field = TField.cpuTimerF)) ∧
      (a.locked = false → a.field = TField.cpuTimerF →
        ∃ e now, op = Op.unlockCtor e now) := by
    intro hl
    refine ⟨fun _ => hl, fun h2 => ?_, fun h2 _ => ?_⟩ <;> rw [hl] at h2 <;> cases h2
  have wall_case : (a.locked = false ∧ a.write = false ∧ a.field = TField.wallTimerF) →
      (a.write = true → a.locked = true) ∧
      (a.locked = false →
        a.write = false ∧ (a.field = TField.wallTimerF ∨ a.field = TField.cpuTimerF)) ∧
      (a.locked = false → a.field = TField.cpuTimerF →
        ∃ e now, op = Op.unlockCtor e now) := by
    rintro ⟨hl, hw, hf⟩
    refine ⟨fun h2 => ?_, fun _ => ⟨hw, Or.inl hf⟩, fun _ h2 => ?_⟩
    · rw [hw] at h2; cases h2
    · rw [hf] at h2; cases h2
  cases op with
  | execCtor x y => simp [opAccesses] at h
  | cpuCtor e now => exact locked_case (mem_cpuCtorAccesses_locked h)
  | cpuDtor id now =>
      rcases hm : s.cpuT id with _ | r
      · simp [opAccesses, hm] at h
      · simp only [opAccesses, hm] at h
        exact locked_case (mem_cpuDtorAccesses_locked h)
  | cpuPause id now =>
      rcases hm : s.cpuT id with _ | r
      · simp [opAccesses, hm] at h
      · simp only [opAccesses, hm] at h
        exact locked_case (mem_pauseAccesses_locked h)
  | cpuResume id now =>
      rcases hm : s.cpuT id with _ | r
      · simp [opAccesses, hm] at h
      · simp only [opAccesses, hm] at h
        exact locked_case (mem_resumeAccesses_locked h)
  | wallCtor e nowP nowW =>
      rcases mem_wallCtorAccesses h with hl | hc
      · exact locked_case hl
      · exact wall_case hc
  | wallDtor id nowR nowW =>
      rcases mem_wallDtorAccesses h with hl | hc
      · exact locked_case hl
      · exact wall_case hc
  | scopeCtor e => simp [opAccesses] at h
  | scopeDtor id => simp [opAccesses] at h
  | lockCtor e nowP nowW now0 =>
      simp only [opAccesses] at h
      rw [List.mem_append] at h
      rcases h with h | h
      · rcases mem_wallCtorAccesses h with hl | hc
        · exact locked_case hl
        · exact wall_case hc
      · exact locked_case (mem_cpuCtorAccesses_locked h)
  | lockDtor cid wid sid now1 nowR nowWD =>
      simp only [opAccesses] at h
      rw [List.mem_append] at h
      rcases h with h | h
      · rcases hm : s.cpuT cid with _ | r
        · simp [hm] at h
        · simp only [hm] at h
          exact locked_case (mem_cpuDtorAccesses_locked h)
      · rcases mem_wallDtorAccesses h with hl | hc
        · exact locked_case hl
        · exact wall_case hc
  | unlockCtor e now =>
      rcases mem_unlockCtorAccesses h with hl | ⟨hl, hw, hf⟩
      · exact locked_case hl
      · exact ⟨fun h2 => (by rw [hw] at h2; cases h2),
               fun _ => ⟨hw, Or.inr hf⟩,
               fun _ _ => ⟨e, now, rfl⟩⟩
  | unlockDtor id now => exact locked_case (mem_unlockDtorAccesses_locked h)

/-- C3 amended witness: the unlocked guard read of Unlock at a concrete
state. -/
theorem C3_amended_witness :
    (⟨0, TField.cpuTimerF, false, false⟩ : Access) ∈
      opAccesses (Op.unlockCtor 0 3) c2s ∧
    ((⟨0, TField.cpuTimerF, false, false⟩ : Access).locked = false →
      (⟨0, TField.cpuTimerF, false, false⟩ : Access).field = TField.cpuTimerF →
      ∃ e now, Op.unlockCtor 0 3 = Op.unlockCtor e now) := by
  have hm : (⟨0, TField.cpuTimerF, false, false⟩ : Access) ∈
      opAccesses (Op.unlockCtor 0 3) c2s := by
    show _ ∈ unlockCtorAccesses 0 c2s
    unfold unlockCtorAccesses
    simp
  exact ⟨hm, (C3_amended (Op.unlockCtor 0 3) c2s _ hm).2.2⟩

/-- C4: a `WallTimer` constructed on an executor whose `wall_timer` is
already set leaves every executor's `wall_timer` and `wall_time` unchanged,
and so does the destruction of a `WallTimer` that is not the installed one:
only the outermost WallTimer installs itself and only it adds its elapsed
duration, so nested `Lock(E)` within `Lock(E)` contributes wall time exactly
once. -/
theorem C4_nested_walltimer_frame :
    (∀ (e : Nat) (nP nW : Int) (s s' : State) (w : Nat),
      (s.execs e).wall_timer = some w → wallCtorP e nP nW s = some s' →
      ∀ f, (s'.execs f).wall_timer = (s.execs f).wall_timer ∧
           (s'.execs f).wall_time = (s.execs f).wall_time) ∧
    (∀ (id : Nat) (nR nW : Int) (s s' : State) (r : WallTimerRec),
      s.wallT id = some r → (s.execs r.exec).wall_timer ≠ some id →
      wallDtorP id nR nW s = some s' →
      ∀ f, (s'.execs f).wall_timer = (s.execs f).wall_timer ∧
           (s'.execs f).wall_time = (s.execs f).wall_time) := by
  constructor
  · intro e nP nW s s' w hw h f
    obtain ⟨s1, hp, rfl⟩ := wallCtorP_some h
    obtain ⟨hfr, _, hnid, _, _⟩ := pausePart_wall_frame hp
    have hw1 : (s1.execs e).wall_timer = some w := by rw [(hfr e).1, hw]
    have : (s1.execs e).wall_timer ≠ none := by rw [hw1]; simp
    unfold wallInstallP
    rw [if_neg this]
    exact ⟨(hfr f).1, (hfr f).2⟩
  · intro id nR nW s s' r hr hno h f
    obtain ⟨r', s1, hr', hres, rfl⟩ := wallDtorP_some h
    rw [hr] at hr'
    cases hr'
    obtain ⟨hfr, _, _, _, _⟩ := resumePart_wall_frame hres
    have hne : (s1.execs r.exec).wall_timer ≠ some id := by
      rw [(hfr r.exec).1]; exact hno
    unfold wallFlushP
    rw [if_neg hne]
    exact ⟨(hfr f).1, (hfr f).2⟩

/-- C4 witness: the inner WallTimer of the nested `Lock(0)`-in-`Lock(0)`
scenario leaves the wall fields of executor 0 unchanged.  In `nested2`, the
outer wall timer (id 1) is installed; constructing one more WallTimer on
executor 0 at that point changes neither `wall_timer` nor `wall_time`. -/
theorem C4_nested_walltimer_frame_witness :
    ((c4s.execs 0).wall_timer = some 1 ∧ wallCtorP 0 31 32 c4s = some c4s') ∧
    ((c4s'.execs 0).wall_timer = (c4s.execs 0).wall_timer ∧
     (c4s'.execs 0).wall_time = (c4s.execs 0).wall_time) := by
  have h1 : (c4s.execs 0).wall_timer = some 1 := by decide
  have h2 : wallCtorP 0 31 32 c4s = some c4s' := by rfl
  exact ⟨⟨h1, h2⟩, (C4_nested_walltimer_frame.1 0 31 32 c4s c4s' 1 h1 h2) 0⟩

theorem timesMono_refl (s : State) : TimesMono s s :=
  fun _ => ⟨le_refl _, le_refl _⟩

theorem timesMono_trans {s1 s2 s3 : State} (h1 : TimesMono s1 s2)
    (h2 : TimesMono s2 s3) : TimesMono s1 s3 :=
  fun f => ⟨le_trans (h1 f).1 (h2 f).1, le_trans (h1 f).2 (h2 f).2⟩

theorem cpuCtorP_mono {e : Nat} {now : Int} {s s' : State}
    (h : cpuCtorP e now s = some s') : TimesMono s s' := by
  obtain ⟨_, rfl⟩ := cpuCtorP_some h
  intro f
  by_cases hf : f = e
  · subst hf; simp [setf_same]
  · simp [setf_other _ _ _ _ hf]

theorem cpuDtorP_mono {id : Nat} {now : Int} {s s' : State}
    (h : cpuDtorP id now s = some s')
    (hd : ∀ r, s.cpuT id = some r → r.time ≤ now) : TimesMono s s' := by
  obtain ⟨r, hr, _, rfl⟩ := cpuDtorP_some h
  have ht := hd r hr
  intro f
  by_cases hf : f = r.exec
  · subst hf; simp [setf_same]; omega
  · simp [setf_other _ _ _ _ hf]

theorem cpuPauseP_mono {id : Nat} {now : Int} {s s' : State}
    (h : cpuPauseP id now s = some s')
    (hd : ∀ r, s.cpuT id = some r → r.time ≤ now) : TimesMono s s' := by
  obtain ⟨r, hr, _, rfl⟩ := cpuPauseP_some h
  have ht := hd r hr
  intro f
  by_cases hf : f = r.exec
  · subst hf; simp [setf_same]; omega
  · simp [setf_other _ _ _ _ hf]

theorem cpuResumeP_mono {id : Nat} {now : Int} {s s' : State}
    (h : cpuResumeP id now s = some s') : TimesMono s s' := by
  obtain ⟨r, _, _, rfl⟩ := cpuResumeP_some h
  intro f
  by_cases hf : f = r.exec
  · subst hf; simp [setf_same]
  · simp [setf_other _ _ _ _ hf]

theorem wallInstallP_mono (e : Nat) (c : Option Nat) (nW : Int) (s : State) :
    TimesMono s (wallInstallP e c nW s) := by
  intro f
  unfold wallInstallP
  by_cases hc : (s.execs e).wall_timer = none
  · rw [if_pos hc]
    by_cases hf : f = e
    · subst hf; simp [setf_same]
    · simp [setf_other _ _ _ _ hf]
  · rw [if_neg hc]
    exact ⟨le_refl _, le_refl _⟩

theorem wallCtorP_mono {e : Nat} {nP nW : Int} {s s' : State}
    (h : wallCtorP e nP nW s = some s')
    (hd : ∀ t r, s.cpu_timer_thread = some t → s.cpuT t = some r → r.time ≤ nP) :
    TimesMono s s' := by
  obtain ⟨s1, hp, rfl⟩ := wallCtorP_some h
  have h1 : TimesMono s s1 := by
    rcases pausePart_some hp with ⟨_, rfl⟩ | ⟨t, hc, hpp⟩
    · exact timesMono_refl _
    · exact cpuPauseP_mono hpp (fun r hr => hd t r hc hr)
  exact timesMono_trans h1 (wallInstallP_mono e _ nW s1)

theorem wallFlushP_mono {id : Nat} {r : WallTimerRec} {nW : Int} {s : State}
    (hd : r.time ≤ nW) : TimesMono s (wallFlushP id r nW s) := by
  intro f
  unfold wallFlushP
  by_cases hc : (s.execs r.exec).wall_timer = some id
  · rw [if_pos hc]
    by_cases hf : f = r.exec
    · subst hf; simp [setf_same]; omega
    · simp [setf_other _ _ _ _ hf]
  · rw [if_neg hc]
    exact ⟨le_refl _, le_refl _⟩

theorem wallDtorP_mono {id : Nat} {nR nW : Int} {s s' : State}
    (h : wallDtorP id nR nW s = some s')
    (hd : ∀ r, s.wallT id = some r → r.time ≤ nW) : TimesMono s s' := by
  obtain ⟨r, s1, hr, hres, rfl⟩ := wallDtorP_some h
  have h1 : TimesMono s s1 := by
    rcases resumePart_some hres with ⟨_, rfl⟩ | ⟨t, _, hpp⟩
    · exact timesMono_refl _
    · exact cpuResumeP_mono hpp
  exact timesMono_trans h1 (wallFlushP_mono (hd r hr))

theorem execCtorP_mono {selfId threadId : Nat} {s : State}
    (hfresh : s.execs selfId = ExecRec.init) :
    TimesMono s (execCtorP selfId threadId s) := by
  intro f
  unfold execCtorP
  rcases s.current_executor with _ | c <;>
    · by_cases hf : f = selfId
      · subst hf; simp [setf_same, hfresh, ExecRec.init]
      · simp [setf_other _ _ _ _ hf]

/-- C6: no operation of the core decreases any executor's accumulated
`cpu_time` or `wall_time`, given that every clock value subtracted from is at
least the stored start it is compared with (which non-decreasing `Now()` and
steady clock guarantee, every stored `time` being an earlier reading), so
every delta added is non-negative. -/
theorem C6_times_monotonic (op : Op) (s s' : State)
    (h : step op s = some s') (hd : deltasOK op s) :
    ∀ f, (s.execs f).cpu_time ≤ (s'.execs f).cpu_time ∧
         (s.execs f).wall_time ≤ (s'.execs f).wall_time := by
  cases op with
  | execCtor selfId threadId =>
      cases Option.some.inj h
      exact execCtorP_mono hd
  | cpuCtor e now => exact cpuCtorP_mono h
  | cpuDtor id now => exact cpuDtorP_mono h hd
  | cpuPause id now => exact cpuPauseP_mono h hd
  | cpuResume id now => exact cpuResumeP_mono h
  | wallCtor e nowP nowW => exact wallCtorP_mono h hd
  | wallDtor id nowR nowW => exact wallDtorP_mono h hd
  | scopeCtor e =>
      cases Option.some.inj h
      exact timesMono_refl _
  | scopeDtor id =>
      obtain ⟨r, _, rfl⟩ := scopeDtorP_some h
      exact timesMono_refl _
  | lockCtor e nowP nowW now0 =>
      obtain ⟨s2, hw, hc⟩ := lockCtorP_some h
      have hd1 : ∀ t r, (scopeCtorP e s).cpu_timer_thread = some t →
          (scopeCtorP e s).cpuT t = some r → r.time ≤ nowP := by
        intro t r h1 h2
        exact hd t r h1 h2
      have m1 : TimesMono (scopeCtorP e s) s2 := wallCtorP_mono hw hd1
      have m0 : TimesMono s (scopeCtorP e s) := timesMono_refl s
      exact timesMono_trans (timesMono_trans m0 m1) (cpuCtorP_mono hc)
  | lockDtor cid wid sid now1 nowR nowWD =>
      obtain ⟨s1, s2, h1, h2, h3⟩ := lockDtorP_some h
      have m1 : TimesMono s s1 := cpuDtorP_mono h1 hd.1
      have hw1 : s1.wallT = s.wallT := by
        obtain ⟨r, _, _, rfl⟩ := cpuDtorP_some h1
        rfl
      have m2 : TimesMono s1 s2 := wallDtorP_mono h2 (by rw [hw1]; exact hd.2)
      have m3 : TimesMono s2 s' := by
        obtain ⟨r, _, rfl⟩ := scopeDtorP_some h3
        exact timesMono_refl _
      exact timesMono_trans (timesMono_trans m1 m2) m3
  | unlockCtor e now =>
      obtain ⟨s1, hp, rfl⟩ := unlockCtorP_some h
      have m1 : TimesMono s s1 := by
        rcases pausePart_some hp with ⟨_, rfl⟩ | ⟨t, hc, hpp⟩
        · exact timesMono_refl _
        · exact cpuPauseP_mono hpp (fun r hr => hd t r hc hr)
      exact fun f => m1 f
  | unlockDtor id now =>
      obtain ⟨r, s1, _, hres, rfl⟩ := unlockDtorP_some h
      have m1 : TimesMono s s1 := by
        rcases resumePart_some hres with ⟨_, rfl⟩ | ⟨t, _, hpp⟩
        · exact timesMono_refl _
        · exact cpuResumeP_mono hpp
      exact fun f => m1 f

/-- C6 witness: a concrete CpuTimer destruction adds a non-negative delta. -/
theorem C6_times_monotonic_witness :
    step (Op.cpuDtor 0 5) c2s = some c6s ∧ deltasOK (Op.cpuDtor 0 5) c2s ∧
    (c2s.execs 0).cpu_time ≤ (c6s.execs 0).cpu_time := by
  have h : step (Op.cpuDtor 0 5) c2s = some c6s := rfl
  have hd : deltasOK (Op.cpuDtor 0 5) c2s := by
    intro r hr
    have : r = { exec := 0, last := none, time := 2 } :=
      (Option.some.inj hr).symm
    rw [this]
    decide
  exact ⟨h, hd, (C6_times_monotonic (Op.cpuDtor 0 5) c2s c6s h hd 0).1⟩

theorem CurInv_transfer {s s' : State} (hcur : s'.current_executor = s.current_executor)
    (hsc : s'.scopes = s.scopes) (h : CurInv s) : CurInv s' := by
  refine ⟨by rw [hcur]; exact h.1, ?_⟩
  intro id r hr
  rw [hsc] at hr
  exact h.2 id r hr

theorem CurInv_scopeCtorP {s : State} (e : Nat) (h : CurInv s) :
    CurInv (scopeCtorP e s) := by
  refine ⟨by simp [scopeCtorP], ?_⟩
  intro id r hr
  simp only [scopeCtorP] at hr
  by_cases hid : id = s.nextId
  · subst hid
    rw [setf_same] at hr
    cases Option.some.inj hr
    exact h.1
  · rw [setf_other _ _ _ _ hid] at hr
    exact h.2 id r hr

theorem CurInv_scopeDtorP {s s' : State} {id : Nat}
    (h : scopeDtorP id s = some s') (hi : CurInv s) : CurInv s' := by
  obtain ⟨r, hr, rfl⟩ := scopeDtorP_some h
  refine ⟨hi.2 id r hr, ?_⟩
  intro id2 r2 hr2
  by_cases hid : id2 = id
  · subst hid
    simp only [setf_same] at hr2
    cases hr2
  · simp only [setf_other _ _ _ _ hid] at hr2
    exact hi.2 id2 r2 hr2

theorem CurInv_pausePart {c : Option Nat} {now : Int} {s s' : State}
    (h : pausePart c now s = some s') (hi : CurInv s) : CurInv s' := by
  rcases pausePart_some h with ⟨_, rfl⟩ | ⟨t, _, hpp⟩
  · exact hi
  · obtain ⟨r, _, _, rfl⟩ := cpuPauseP_some hpp
    exact CurInv_transfer rfl rfl hi

theorem CurInv_resumePart {c : Option Nat} {now : Int} {s s' : State}
    (h : resumePart c now s = some s') (hi : CurInv s) : CurInv s' := by
  rcases resumePart_some h with ⟨_, rfl⟩ | ⟨t, _, hpp⟩
  · exact hi
  · obtain ⟨r, _, _, rfl⟩ := cpuResumeP_some hpp
    exact CurInv_transfer rfl rfl hi

/-- C10: constructing an `Executor` on a thread with no current executor
permanently installs the new executor as `current_executor`: the constructor
sets it, a construction with a current executor leaves the slot unchanged,
and every operation of the core preserves the invariant that the slot is
non-null once all live Scopes saved non-null values (no destructor resets it
to null). -/
theorem C10_executor_ctor_current :
    (∀ (selfId threadId : Nat) (s : State), s.current_executor = none →
      (execCtorP selfId threadId s).current_executor = some selfId) ∧
    (∀ (selfId threadId : Nat) (s : State) (c : Nat), s.current_executor = some c →
      (execCtorP selfId threadId s).current_executor = s.current_executor) ∧
    (∀ (op : Op) (s s' : State), step op s = some s' → CurInv s → CurInv s') ∧
    (∀ (selfId threadId : Nat) (s : State), s.current_executor = none →
      (∀ id r, s.scopes id = some r → r.last ≠ none) →
      CurInv (execCtorP selfId threadId s)) := by
  have hexec : ∀ (selfId threadId : Nat) (s : State),
      (execCtorP selfId threadId s).scopes = s.scopes ∧
      ((execCtorP selfId threadId s).current_executor = s.current_executor ∨
       (s.current_executor = none ∧
        (execCtorP selfId threadId s).current_executor = some selfId)) := by
    intro selfId threadId s
    unfold execCtorP
    rcases hc : s.current_executor with _ | c
    · exact ⟨rfl, Or.inr ⟨rfl, rfl⟩⟩
    · exact ⟨rfl, Or.inl rfl⟩
  refine ⟨?_, ?_, ?_, ?_⟩
  · intro selfId threadId s hc
    simp [execCtorP, hc]
  · intro selfId threadId s c hc
    simp [execCtorP, hc]
  · intro op s s' h hi
    cases op with
    | execCtor selfId threadId =>
        cases Option.some.inj h
        obtain ⟨hsc, hcur⟩ := hexec selfId threadId s
        rcases hcur with hcur | hcur
        · exact CurInv_transfer hcur hsc hi
        · exact absurd hcur.1 hi.1
    | cpuCtor e now =>
        obtain ⟨_, rfl⟩ := cpuCtorP_some h
        exact CurInv_transfer rfl rfl hi
    | cpuDtor id now =>
        obtain ⟨r, _, _, rfl⟩ := cpuDtorP_some h
        exact CurInv_transfer rfl rfl hi
    | cpuPause id now =>
        obtain ⟨r, _, _, rfl⟩ := cpuPauseP_some h
        exact CurInv_transfer rfl rfl hi
    | cpuResume id now =>
        obtain ⟨r, _, _, rfl⟩ := cpuResumeP_some h
        exact CurInv_transfer rfl rfl hi
    | wallCtor e nowP nowW =>
        obtain ⟨s1, hp, rfl⟩ := wallCtorP_some h
        have h1 := CurInv_pausePart hp hi
        unfold wallInstallP
        by_cases hc : (s1.execs e).wall_timer = none
        · rw [if_pos hc]; exact CurInv_transfer rfl rfl h1
        · rw [if_neg hc]; exact CurInv_transfer rfl rfl h1
    | wallDtor id nowR nowW =>
        obtain ⟨r, s1, _, hres, rfl⟩ := wallDtorP_some h
        have h1 := CurInv_resumePart hres hi
        unfold wallFlushP
        by_cases hc : (s1.execs r.exec).wall_timer = some id
        · rw [if_pos hc]; exact CurInv_transfer rfl rfl h1
        · rw [if_neg hc]; exact CurInv_transfer rfl rfl h1
    | scopeCtor e =>
        cases Option.some.inj h
        exact CurInv_scopeCtorP e hi
    | scopeDtor id => exact CurInv_scopeDtorP h hi
    | lockCtor e nowP nowW now0 =>
        obtain ⟨s2, hw, hc⟩ := lockCtorP_some h
        have h1 := CurInv_scopeCtorP e hi
        have h2 : CurInv s2 := by
          obtain ⟨s1, hp, rfl⟩ := wallCtorP_some hw
          have := CurInv_pausePart hp h1
          unfold wallInstallP
          by_cases hcc : (s1.execs e).wall_timer = none
          · rw [if_pos hcc]; exact CurInv_transfer rfl rfl this
          · rw [if_neg hcc]; exact CurInv_transfer rfl rfl this
        obtain ⟨_, rfl⟩ := cpuCtorP_some hc
        exact CurInv_transfer rfl rfl h2
    | lockDtor cid wid sid now1 nowR nowWD =>
        obtain ⟨s1, s2, h1, h2, h3⟩ := lockDtorP_some h
        have i1 : CurInv s1 := by
          obtain ⟨r, _, _, rfl⟩ := cpuDtorP_some h1
          exact CurInv_transfer rfl rfl hi
        have i2 : CurInv s2 := by
          obtain ⟨r, s15, _, hres, rfl⟩ := wallDtorP_some h2
          have := CurInv_resumePart hres i1
          unfold wallFlushP
          by_cases hcc : (s15.execs r.exec).wall_timer = some wid
          · rw [if_pos hcc]; exact CurInv_transfer rfl rfl this
          · rw [if_neg hcc]; exact CurInv_transfer rfl rfl this
        exact CurInv_scopeDtorP h3 i2
    | unlockCtor e now =>
        obtain ⟨s1, hp, rfl⟩ := unlockCtorP_some h
        have h1 := CurInv_pausePart hp hi
        exact CurInv_transfer rfl rfl h1
    | unlockDtor id now =>
        obtain ⟨r, s1, _, hres, rfl⟩ := unlockDtorP_some h
        have h1 := CurInv_resumePart hres hi
        exact CurInv_transfer rfl rfl h1
  · intro selfId threadId s hc hsc
    constructor
    · simp [execCtorP, hc]
    · intro id r hr
      rw [(hexec selfId threadId s).1] at hr
      exact hsc id r hr

/-- C10 witness: constructing executor 3 on a fresh thread installs it as
current, and the resulting state satisfies the preserved invariant. -/
theorem C10_executor_ctor_current_witness :
    s0.current_executor = none ∧
    (∀ id r, s0.scopes id = some r → r.last ≠ none) ∧
    (execCtorP 3 1 s0).current_executor = some 3 ∧
    CurInv (execCtorP 3 1 s0) := by
  have h1 : s0.current_executor = none := rfl
  have h2 : ∀ id r, s0.scopes id = some r → r.last ≠ none := by
    intro id r hr
    simp [s0] at hr
  exact ⟨h1, h2, C10_executor_ctor_current.1 3 1 s0 h1,
         C10_executor_ctor_current.2.2.2 3 1 s0 h1 h2⟩

/-- C5 fails as stated for `B = A`: in the nested `Lock(0)`-in-`Lock(0)`
state, the outer CpuTimer (id 2) attributes to executor 0 and is paused (it
is live but not installed), yet executor 0's `cpu_timer` is the inner timer
(id 5), not null, and destroying the inner timer at time 20 increases
executor 0's `cpu_time` from 8 to 15 before timer 2's `Resume` ever runs
(timer 2 is still live and uninstalled afterwards). -/
theorem C5_counterexample :
    c4s.cpuT 2 = some { exec := 0, last := none, time := 3 } ∧
    (c4s.execs 0).cpu_timer = some 5 ∧
    (c4s.execs 0).cpu_time = 8 ∧
    ((cpuDtorP 5 20 c4s).map fun s =>
      ((s.execs 0).cpu_time, (s.cpuT 2).isSome, (s.execs 0).cpu_timer)) =
      some (15, true, none) := by
  refine ⟨by decide, by decide, by decide, by decide⟩

theorem Frame_refl (s : State) : Frame s s :=
  ⟨le_refl _, rfl, rfl, fun _ _ => ⟨rfl, rfl, rfl, rfl⟩⟩

theorem Frame_trans {s1 s2 s3 : State} (h1 : Frame s1 s2) (h2 : Frame s2 s3) :
    Frame s1 s3 := by
  obtain ⟨hn1, hh1, hc1, hs1⟩ := h1
  obtain ⟨hn2, hh2, hc2, hs2⟩ := h2
  refine ⟨le_trans hn1 hn2, hh2.trans hh1, hc2.trans hc1, ?_⟩
  intro id hid
  obtain ⟨a1, b1, c1, d1⟩ := hs1 id hid
  obtain ⟨a2, b2, c2, d2⟩ := hs2 id (lt_of_lt_of_le hid hn1)
  exact ⟨a2.trans a1, b2.trans b1, c2.trans c1, d2.trans d1⟩

theorem pausePart_frame {c : Option Nat} {now : Int} {s sp : State}
    (h : pausePart c now s = some sp) :
    sp.cpuT = s.cpuT ∧ sp.wallT = s.wallT ∧ sp.scopes = s.scopes ∧
    sp.pauses = s.pauses ∧ sp.nextId = s.nextId ∧
    sp.cpu_timer_thread = s.cpu_timer_thread ∧
    sp.current_executor = s.current_executor := by
  rcases pausePart_some h with ⟨_, rfl⟩ | ⟨t, _, hpp⟩
  · exact ⟨rfl, rfl, rfl, rfl, rfl, rfl, rfl⟩
  · obtain ⟨r, _, _, rfl⟩ := cpuPauseP_some hpp
    exact ⟨rfl, rfl, rfl, rfl, rfl, rfl, rfl⟩

theorem resumePart_frame {c : Option Nat} {now : Int} {s sp : State}
    (h : resumePart c now s = some sp) :
    (∀ id, cpuKey (sp.cpuT id) = cpuKey (s.cpuT id)) ∧
    sp.wallT = s.wallT ∧ sp.scopes = s.scopes ∧
    sp.pauses = s.pauses ∧ sp.nextId = s.nextId ∧
    sp.cpu_timer_thread = s.cpu_timer_thread ∧
    sp.current_executor = s.current_executor := by
  rcases resumePart_some h with ⟨_, rfl⟩ | ⟨t, _, hpp⟩
  · exact ⟨fun _ => rfl, rfl, rfl, rfl, rfl, rfl, rfl⟩
  · obtain ⟨r, hr, _, rfl⟩ := cpuResumeP_some hpp
    refine ⟨?_, rfl, rfl, rfl, rfl, rfl, rfl⟩
    intro id
    by_cases hid : id = t
    · subst hid
      simp only [setf_same, hr, cpuKey, Option.map]
    · simp only [setf_other _ _ _ _ hid]

/-- Balanced CpuTimer bracket: construction at the entry counter value, any
body preserving `Frame`, then destruction of the same object, restores the
thread stack head and every older object. -/
theorem frame_cpu_bracket {e : Nat} {n0 n1 : Int} {s s1 s2 s' : State}
    (hc : cpuCtorP e n0 s = some s1) (hb : Frame s1 s2)
    (hd : cpuDtorP s.nextId n1 s2 = some s') : Frame s s' := by
  obtain ⟨hnone, rfl⟩ := cpuCtorP_some hc
  obtain ⟨hn, hh, hcur, hst⟩ := hb
  obtain ⟨hmap, hwall, hscope, hpause⟩ := hst s.nextId (by simp)
  obtain ⟨r2, hr2, hc2, rfl⟩ := cpuDtorP_some hd
  rw [hr2] at hmap
  simp only [setf_same, cpuKey, Option.map_some] at hmap
  have hrx : r2.exec = e ∧ r2.last = s.cpu_timer_thread := by
    have := Option.some.inj hmap
    exact ⟨congrArg Prod.fst this, congrArg Prod.snd this⟩
  refine ⟨?_, ?_, ?_, ?_⟩
  · calc s.nextId ≤ s.nextId + 1 := Nat.le_succ _
      _ ≤ s2.nextId := hn
  · exact hrx.2
  · exact hcur
  · intro id hid
    have hid1 : id < s.nextId + 1 := Nat.lt_succ_of_lt hid
    have hidne : id ≠ s.nextId := Nat.ne_of_lt hid
    obtain ⟨a1, b1, c1, d1⟩ := hst id hid1
    refine ⟨?_, ?_, ?_, ?_⟩
    · show cpuKey (setf s2.cpuT s.nextId none id) = _
      rw [setf_other _ _ _ _ hidne]
      rw [a1]
      show cpuKey (setf s.cpuT s.nextId _ id) = _
      rw [setf_other _ _ _ _ hidne]
    · exact b1
    · exact c1
    · exact d1

/-- Balanced Scope bracket. -/
theorem frame_scope_bracket {e : Nat} {s s2 s' : State}
    (hb : Frame (scopeCtorP e s) s2)
    (hd : scopeDtorP s.nextId s2 = some s') : Frame s s' := by
  obtain ⟨hn, hh, hcur, hst⟩ := hb
  obtain ⟨hmap, hwall, hscope, hpause⟩ := hst s.nextId (by simp [scopeCtorP])
  obtain ⟨r, hr, rfl⟩ := scopeDtorP_some hd
  rw [hr] at hscope
  simp only [scopeCtorP, setf_same] at hscope
  have hrlast : r.last = s.current_executor := by
    cases Option.some.inj hscope
    rfl
  refine ⟨?_, ?_, ?_, ?_⟩
  · calc s.nextId ≤ s.nextId + 1 := Nat.le_succ _
      _ ≤ s2.nextId := hn
  · exact hh
  · exact hrlast
  · intro id hid
    have hid1 : id < (scopeCtorP e s).nextId := by
      simp only [scopeCtorP]
      exact Nat.lt_succ_of_lt hid
    have hidne : id ≠ s.nextId := Nat.ne_of_lt hid
    obtain ⟨a1, b1, c1, d1⟩ := hst id hid1
    refine ⟨a1, b1, ?_, d1⟩
    show setf s2.scopes s.nextId none id = _
    rw [setf_other _ _ _ _ hidne, c1]
    show setf s.scopes s.nextId _ id = _
    rw [setf_other _ _ _ _ hidne]

/-- Balanced WallTimer bracket. -/
theorem frame_wall_bracket {e : Nat} {nP nW nR nWD : Int} {s s1 s2 s' : State}
    (hc : wallCtorP e nP nW s = some s1) (hb : Frame s1 s2)
    (hd : wallDtorP s.nextId nR nWD s2 = some s') : Frame s s' := by
  obtain ⟨sp, hpp, rfl⟩ := wallCtorP_some hc
  obtain ⟨pT, pW, pS, pP, pN, pH, pC⟩ := pausePart_frame hpp
  obtain ⟨hn, hh, hcur, hst⟩ := hb
  have hnid1 : (wallInstallP e s.cpu_timer_thread nW sp).nextId = s.nextId + 1 := by
    unfold wallInstallP
    by_cases hg : (sp.execs e).wall_timer = none
    · rw [if_pos hg]; simp [pN]
    · rw [if_neg hg]; simp [pN]
  have hwid : (wallInstallP e s.cpu_timer_thread nW sp).wallT s.nextId =
      some { exec := e
             cpu_timer := s.cpu_timer_thread
             time := if (sp.execs e).wall_timer = none then nW else 0 } := by
    unfold wallInstallP
    by_cases hg : (sp.execs e).wall_timer = none
    · rw [if_pos hg]
      simp only [pN, setf_same, if_pos hg]
    · rw [if_neg hg]
      simp only [pN, setf_same, if_neg hg]
  have hother : ∀ id, id ≠ s.nextId →
      (wallInstallP e s.cpu_timer_thread nW sp).wallT id = s.wallT id := by
    intro id hidne
    unfold wallInstallP
    by_cases hg : (sp.execs e).wall_timer = none
    · rw [if_pos hg]
      simp only [pN, setf_other _ _ _ _ hidne, pW]
    · rw [if_neg hg]
      simp only [pN, setf_other _ _ _ _ hidne, pW]
  have hinsT : (wallInstallP e s.cpu_timer_thread nW sp).cpuT = s.cpuT := by
    unfold wallInstallP
    by_cases hg : (sp.execs e).wall_timer = none
    · rw [if_pos hg]; exact pT
    · rw [if_neg hg]; exact pT
  have hinsS : (wallInstallP e s.cpu_timer_thread nW sp).scopes = s.scopes := by
    unfold wallInstallP
    by_cases hg : (sp.execs e).wall_timer = none
    · rw [if_pos hg]; exact pS
    · rw [if_neg hg]; exact pS
  have hinsP : (wallInstallP e s.cpu_timer_thread nW sp).pauses = s.pauses := by
    unfold wallInstallP
    by_cases hg : (sp.execs e).wall_timer = none
    · rw [if_pos hg]; exact pP
    · rw [if_neg hg]; exact pP
  have hinsH : (wallInstallP e s.cpu_timer_thread nW sp).cpu_timer_thread =
      s.cpu_timer_thread := by
    unfold wallInstallP
    by_cases hg : (sp.execs e).wall_timer = none
    · rw [if_pos hg]; exact pH
    · rw [if_neg hg]; exact pH
  have hinsC : (wallInstallP e s.cpu_timer_thread nW sp).current_executor =
      s.current_executor := by
    unfold wallInstallP
    by_cases hg : (sp.execs e).wall_timer = none
    · rw [if_pos hg]; exact pC
    · rw [if_neg hg]; exact pC
  obtain ⟨rw2, sq, hrw2, hres, rfl⟩ := wallDtorP_some hd
  obtain ⟨hwst, hwm⟩ := hst s.nextId (by rw [hnid1]; exact Nat.lt_succ_self _)
  have hrw2v : rw2 =
      { exec := e
        cpu_timer := s.cpu_timer_thread
        time := if (sp.execs e).wall_timer = none then nW else 0 } := by
    have := hwm.1
    rw [hrw2] at this
    rw [hwid] at this
    exact Option.some.inj this
  obtain ⟨qT, qW, qS, qP, qN, qH, qC⟩ := resumePart_frame hres
  have flushH : ∀ sx : State, (wallFlushP s.nextId rw2 nWD sx).cpu_timer_thread =
      sx.cpu_timer_thread := by
    intro sx
    unfold wallFlushP
    by_cases hg : (sx.execs rw2.exec).wall_timer = some s.nextId
    · rw [if_pos hg]
    · rw [if_neg hg]
  have flushC : ∀ sx : State, (wallFlushP s.nextId rw2 nWD sx).current_executor =
      sx.current_executor := by
    intro sx
    unfold wallFlushP
    by_cases hg : (sx.execs rw2.exec).wall_timer = some s.nextId
    · rw [if_pos hg]
    · rw [if_neg hg]
  have flushN : ∀ sx : State, (wallFlushP s.nextId rw2 nWD sx).nextId = sx.nextId := by
    intro sx
    unfold wallFlushP
    by_cases hg : (sx.execs rw2.exec).wall_timer = some s.nextId
    · rw [if_pos hg]
    · rw [if_neg hg]
  have flushT : ∀ sx : State, (wallFlushP s.nextId rw2 nWD sx).cpuT = sx.cpuT := by
    intro sx
    unfold wallFlushP
    by_cases hg : (sx.execs rw2.exec).wall_timer = some s.nextId
    · rw [if_pos hg]
    · rw [if_neg hg]
  have flushS : ∀ sx : State, (wallFlushP s.nextId rw2 nWD sx).scopes = sx.scopes := by
    intro sx
    unfold wallFlushP
    by_cases hg : (sx.execs rw2.exec).wall_timer = some s.nextId
    · rw [if_pos hg]
    · rw [if_neg hg]
  have flushP : ∀ sx : State, (wallFlushP s.nextId rw2 nWD sx).pauses = sx.pauses := by
    intro sx
    unfold wallFlushP
    by_cases hg : (sx.execs rw2.exec).wall_timer = some s.nextId
    · rw [if_pos hg]
    · rw [if_neg hg]
  have flushW : ∀ sx : State, ∀ id, id ≠ s.nextId →
      (wallFlushP s.nextId rw2 nWD sx).wallT id = sx.wallT id := by
    intro sx id hidne
    unfold wallFlushP
    by_cases hg : (sx.execs rw2.exec).wall_timer = some s.nextId
    · rw [if_pos hg]
      exact setf_other _ _ _ _ hidne
    · rw [if_neg hg]
      exact setf_other _ _ _ _ hidne
  refine ⟨?_, ?_, ?_, ?_⟩
  · rw [flushN, qN]
    calc s.nextId ≤ s.nextId + 1 := Nat.le_succ _
      _ = (wallInstallP e s.cpu_timer_thread nW sp).nextId := hnid1.symm
      _ ≤ s2.nextId := hn
  · rw [flushH, qH, hh, hinsH]
  · rw [flushC, qC, hcur, hinsC]
  · intro id hid
    have hidne : id ≠ s.nextId := Nat.ne_of_lt hid
    have hid1 : id < (wallInstallP e s.cpu_timer_thread nW sp).nextId := by
      rw [hnid1]
      exact Nat.lt_succ_of_lt hid
    obtain ⟨a1, b1, c1, d1⟩ := hst id hid1
    refine ⟨?_, ?_, ?_, ?_⟩
    · rw [flushT, qT id, a1, hinsT]
    · rw [flushW sq id hidne, qW, b1, hother id hidne]
    · rw [flushS, qS, c1, hinsS]
    · rw [flushP, qP, d1, hinsP]

/-- Balanced Unlock bracket. -/
theorem frame_unlock_bracket {e : Nat} {nP nR : Int} {s s1 s2 s' : State}
    (hc : unlockCtorP e nP s = some s1) (hb : Frame s1 s2)
    (hd : unlockDtorP s.nextId nR s2 = some s') : Frame s s' := by
  obtain ⟨sp, hpp, rfl⟩ := unlockCtorP_some hc
  obtain ⟨pT, pW, pS, pP, pN, pH, pC⟩ := pausePart_frame hpp
  obtain ⟨hn, hh, hcur, hst⟩ := hb
  obtain ⟨r, sq, hr, hres, rfl⟩ := unlockDtorP_some hd
  obtain ⟨qT, qW, qS, qP, qN, qH, qC⟩ := resumePart_frame hres
  refine ⟨?_, ?_, ?_, ?_⟩
  · rw [qN]
    calc s.nextId ≤ s.nextId + 1 := Nat.le_succ _
      _ = sp.nextId + 1 := by rw [pN]
      _ ≤ s2.nextId := hn
  · rw [qH, hh]
    exact pH
  · rw [qC, hcur]
    exact pC
  · intro id hid
    have hidne : id ≠ s.nextId := Nat.ne_of_lt hid
    have hid1 : id < sp.nextId + 1 := by
      rw [pN]
      exact Nat.lt_succ_of_lt hid
    obtain ⟨a1, b1, c1, d1⟩ := hst id hid1
    refine ⟨?_, ?_, ?_, ?_⟩
    · rw [qT id, a1, pT]
    · rw [qW, b1, pW]
    · rw [qS, c1, pS]
    · show setf sq.pauses s.nextId none id = _
      rw [setf_other _ _ _ _ hidne, qP, d1]
      show setf sp.pauses sp.nextId _ id = _
      rw [pN, setf_other _ _ _ _ hidne, pP]

theorem wallCtorP_nextId {e : Nat} {nP nW : Int} {s s1 : State}
    (h : wallCtorP e nP nW s = some s1) : s1.nextId = s.nextId + 1 := by
  obtain ⟨sp, hpp, rfl⟩ := wallCtorP_some h
  obtain ⟨_, _, _, _, pN, _, _⟩ := pausePart_frame hpp
  unfold wallInstallP
  by_cases hg : (sp.execs e).wall_timer = none
  · rw [if_pos hg]; simp [pN]
  · rw [if_neg hg]; simp [pN]

mutual
/-- Running one properly nested scoped object restores the thread-local
slots and preserves every object alive at entry (its executor and stack link
for CpuTimers, everything for the other stores). -/
theorem run_frame : ∀ (it : Item) (s s' : State), run it s = some s' → Frame s s'
  | .scopeI e body, s, s', h => by
      simp only [run] at h
      cases hb : runList body (scopeCtorP e s) with
      | none => simp only [hb] at h; cases h
      | some s2 =>
          simp only [hb] at h
          exact frame_scope_bracket (runList_frame body _ _ hb) h
  | .cpuI e n0 n1 body, s, s', h => by
      simp only [run] at h
      cases hc : cpuCtorP e n0 s with
      | none => simp only [hc] at h; cases h
      | some s1 =>
          simp only [hc] at h
          cases hb : runList body s1 with
          | none => simp only [hb] at h; cases h
          | some s2 =>
              simp only [hb] at h
              exact frame_cpu_bracket hc (runList_frame body _ _ hb) h
  | .wallI e nP nW nR nWD body, s, s', h => by
      simp only [run] at h
      cases hc : wallCtorP e nP nW s with
      | none => simp only [hc] at h; cases h
      | some s1 =>
          simp only [hc] at h
          cases hb : runList body s1 with
          | none => simp only [hb] at h; cases h
          | some s2 =>
              simp only [hb] at h
              exact frame_wall_bracket hc (runList_frame body _ _ hb) h
  | .lockI e nP nW n0 n1 nR nWD body, s, s', h => by
      simp only [run] at h
      cases hc : lockCtorP e nP nW n0 s with
      | none => simp only [hc] at h; cases h
      | some s1 =>
          simp only [hc] at h
          cases hb : runList body s1 with
          | none => simp only [hb] at h; cases h
          | some s2 =>
              simp only [hb] at h
              obtain ⟨t2, hw, hcp⟩ := lockCtorP_some hc
              obtain ⟨u1, u2, hd1, hd2, hd3⟩ := lockDtorP_some h
              have ht1n : (scopeCtorP e s).nextId = s.nextId + 1 := rfl
              have ht2n : t2.nextId = s.nextId + 2 := by
                rw [wallCtorP_nextId hw, ht1n]
              have f2 : Frame t2 u1 := by
                apply frame_cpu_bracket hcp (runList_frame body _ _ hb)
                rw [ht2n]
                exact hd1
              have f1 : Frame (scopeCtorP e s) u2 := by
                apply frame_wall_bracket hw f2
                rw [ht1n]
                exact hd2
              exact frame_scope_bracket f1 hd3
  | .unlockI e nP nR body, s, s', h => by
      simp only [run] at h
      cases hc : unlockCtorP e nP s with
      | none => simp only [hc] at h; cases h
      | some s1 =>
          simp only [hc] at h
          cases hb : runList body s1 with
          | none => simp only [hb] at h; cases h
          | some s2 =>
              simp only [hb] at h
              exact frame_unlock_bracket hc (runList_frame body _ _ hb) h
/-- Running a sequence of properly nested scoped objects preserves the
entry-time objects and restores the thread-local slots. -/
theorem runList_frame : ∀ (l : Items) (s s' : State), runList l s = some s' → Frame s s'
  | .nil, s, s', h => by
      cases Option.some.inj h
      exact Frame_refl s
  | .cons it rest, s, s', h => by
      simp only [runList] at h
      cases hr : run it s with
      | none => simp only [hr] at h; cases h
      | some s1 =>
          simp only [hr] at h
          exact Frame_trans (run_frame it _ _ hr) (runList_frame rest _ _ h)
end

/-- C7: for any sequence of properly nested Lock / Unlock / CpuTimer /
WallTimer / Scope scopes, each destroyed in reverse order of construction, on
exit the thread-local stack head `cpu_timer_thread` equals its entry value
and `current_executor` equals its entry value: each construction saves the
previous value in its `last` field and each destruction restores it. -/
theorem C7_thread_locals_restored (items : Items) (s s' : State)
    (h : runList items s = some s') :
    s'.cpu_timer_thread = s.cpu_timer_thread ∧
    s'.current_executor = s.current_executor := by
  obtain ⟨_, hh, hc, _⟩ := runList_frame items s s' h
  exact ⟨hh, hc⟩

/-- C7 witness: the nested lock tree runs to completion and restores both
thread-local slots to their (empty) entry values. -/
theorem C7_thread_locals_restored_witness :
    runList c7tree s0 = some c7s ∧
    c7s.cpu_timer_thread = s0.cpu_timer_thread ∧
    c7s.current_executor = s0.current_executor := by
  have h : runList c7tree s0 = some c7s := rfl
  exact ⟨h, C7_thread_locals_restored c7tree s0 c7s h⟩

theorem fresh_s0 : Fresh s0 :=
  fun _ _ => ⟨rfl, rfl, rfl, rfl⟩

theorem pausePart_fresh {c : Option Nat} {now : Int} {s sp : State}
    (h : pausePart c now s = some sp) (hf : Fresh s) : Fresh sp := by
  obtain ⟨pT, pW, pS, pP, pN, _, _⟩ := pausePart_frame h
  intro id hid
  rw [pN] at hid
  rw [pT, pW, pS, pP]
  exact hf id hid

theorem resumePart_fresh {c : Option Nat} {now : Int} {s sp : State}
    (h : resumePart c now s = some sp) (hf : Fresh s) : Fresh sp := by
  rcases resumePart_some h with ⟨_, rfl⟩ | ⟨t, _, hpp⟩
  · exact hf
  · obtain ⟨r, hr, _, rfl⟩ := cpuResumeP_some hpp
    have ht : t < s.nextId := by
      by_contra hge
      have := (hf t (Nat.le_of_not_lt hge)).1
      rw [this] at hr
      cases hr
    intro id hid
    simp only at hid
    have hidt : id ≠ t := by omega
    refine ⟨?_, (hf id hid).2.1, (hf id hid).2.2.1, (hf id hid).2.2.2⟩
    show setf s.cpuT t _ id = none
    rw [setf_other _ _ _ _ hidt]
    exact (hf id hid).1

theorem cpuCtorP_fresh {e : Nat} {n0 : Int} {s s1 : State}
    (h : cpuCtorP e n0 s = some s1) (hf : Fresh s) : Fresh s1 := by
  obtain ⟨_, rfl⟩ := cpuCtorP_some h
  intro id hid
  simp only at hid
  have hid0 : s.nextId ≤ id := by omega
  have hidne : id ≠ s.nextId := by omega
  refine ⟨?_, (hf id hid0).2.1, (hf id hid0).2.2.1, (hf id hid0).2.2.2⟩
  show setf s.cpuT s.nextId _ id = none
  rw [setf_other _ _ _ _ hidne]
  exact (hf id hid0).1

theorem cpuDtorP_fresh {cid : Nat} {n1 : Int} {s2 s' : State}
    (h : cpuDtorP cid n1 s2 = some s') (hf : Fresh s2) : Fresh s' := by
  obtain ⟨r, _, _, rfl⟩ := cpuDtorP_some h
  intro id hid
  simp only at hid
  refine ⟨?_, (hf id hid).2.1, (hf id hid).2.2.1, (hf id hid).2.2.2⟩
  show setf s2.cpuT cid none id = none
  by_cases hc : id = cid
  · subst hc; exact setf_same _ _ _
  · rw [setf_other _ _ _ _ hc]
    exact (hf id hid).1

theorem wallCtorP_fresh {e : Nat} {nP nW : Int} {s s1 : State}
    (h : wallCtorP e nP nW s = some s1) (hf : Fresh s) : Fresh s1 := by
  obtain ⟨sp, hpp, rfl⟩ := wallCtorP_some h
  have hfp := pausePart_fresh hpp hf
  obtain ⟨_, _, _, _, pN, _, _⟩ := pausePart_frame hpp
  intro id hid
  have hnid : (wallInstallP e s.cpu_timer_thread nW sp).nextId = sp.nextId + 1 := by
    unfold wallInstallP
    by_cases hg : (sp.execs e).wall_timer = none
    · rw [if_pos hg]
    · rw [if_neg hg]
  rw [hnid] at hid
  have hid0 : sp.nextId ≤ id := by omega
  have hidne : id ≠ sp.nextId := by omega
  obtain ⟨f1, f2, f3, f4⟩ := hfp id hid0
  unfold wallInstallP
  by_cases hg : (sp.execs e).wall_timer = none
  · rw [if_pos hg]
    refine ⟨f1, ?_, f3, f4⟩
    show setf sp.wallT sp.nextId _ id = none
    rw [setf_other _ _ _ _ hidne]
    exact f2
  · rw [if_neg hg]
    refine ⟨f1, ?_, f3, f4⟩
    show setf sp.wallT sp.nextId _ id = none
    rw [setf_other _ _ _ _ hidne]
    exact f2

theorem wallDtorP_fresh {wid : Nat} {nR nWD : Int} {s2 s' : State}
    (h : wallDtorP wid nR nWD s2 = some s') (hf : Fresh s2) : Fresh s' := by
  obtain ⟨r, sq, _, hres, rfl⟩ := wallDtorP_some h
  have hfq := resumePart_fresh hres hf
  obtain ⟨_, _, _, _, qN, _, _⟩ := resumePart_frame hres
  intro id hid
  have hflN : (wallFlushP wid r nWD sq).nextId = sq.nextId := by
    unfold wallFlushP
    by_cases hg : (sq.execs r.exec).wall_timer = some wid
    · rw [if_pos hg]
    · rw [if_neg hg]
  rw [hflN] at hid
  obtain ⟨f1, f2, f3, f4⟩ := hfq id hid
  have hwT : (wallFlushP wid r nWD sq).wallT id = none := by
    unfold wallFlushP
    by_cases hg : (sq.execs r.exec).wall_timer = some wid
    · rw [if_pos hg]
      show setf sq.wallT wid none id = none
      by_cases hc : id = wid
      · subst hc; exact setf_same _ _ _
      · rw [setf_other _ _ _ _ hc]; exact f2
    · rw [if_neg hg]
      show setf sq.wallT wid none id = none
      by_cases hc : id = wid
      · subst hc; exact setf_same _ _ _
      · rw [setf_other _ _ _ _ hc]; exact f2
  have hrest : (wallFlushP wid r nWD sq).cpuT = sq.cpuT ∧
      (wallFlushP wid r nWD sq).scopes = sq.scopes ∧
      (wallFlushP wid r nWD sq).pauses = sq.pauses := by
    unfold wallFlushP
    by_cases hg : (sq.execs r.exec).wall_timer = some wid
    · rw [if_pos hg]; exact ⟨rfl, rfl, rfl⟩
    · rw [if_neg hg]; exact ⟨rfl, rfl, rfl⟩
  exact ⟨by rw [hrest.1]; exact f1, hwT, by rw [hrest.2.1]; exact f3,
         by rw [hrest.2.2]; exact f4⟩

theorem scopeCtorP_fresh {e : Nat} {s : State} (hf : Fresh s) :
    Fresh (scopeCtorP e s) := by
  intro id hid
  simp only [scopeCtorP] at hid ⊢
  have hid0 : s.nextId ≤ id := by omega
  have hidne : id ≠ s.nextId := by omega
  refine ⟨(hf id hid0).1, (hf id hid0).2.1, ?_, (hf id hid0).2.2.2⟩
  rw [setf_other _ _ _ _ hidne]
  exact (hf id hid0).2.2.1

theorem scopeDtorP_fresh {sid : Nat} {s2 s' : State}
    (h : scopeDtorP sid s2 = some s') (hf : Fresh s2) : Fresh s' := by
  obtain ⟨r, _, rfl⟩ := scopeDtorP_some h
  intro id hid
  simp only at hid
  refine ⟨(hf id hid).1, (hf id hid).2.1, ?_, (hf id hid).2.2.2⟩
  show setf s2.scopes sid none id = none
  by_cases hc : id = sid
  · subst hc; exact setf_same _ _ _
  · rw [setf_other _ _ _ _ hc]
    exact (hf id hid).2.2.1

theorem unlockCtorP_fresh {e : Nat} {nP : Int} {s s1 : State}
    (h : unlockCtorP e nP s = some s1) (hf : Fresh s) : Fresh s1 := by
  obtain ⟨sp, hpp, rfl⟩ := unlockCtorP_some h
  have hfp := pausePart_fresh hpp hf
  intro id hid
  simp only at hid
  have hid0 : sp.nextId ≤ id := by omega
  have hidne : id ≠ sp.nextId := by omega
  refine ⟨(hfp id hid0).1, (hfp id hid0).2.1, (hfp id hid0).2.2.1, ?_⟩
  show setf sp.pauses sp.nextId _ id = none
  rw [setf_other _ _ _ _ hidne]
  exact (hfp id hid0).2.2.2

theorem unlockDtorP_fresh {pid : Nat} {nR : Int} {s2 s' : State}
    (h : unlockDtorP pid nR s2 = some s') (hf : Fresh s2) : Fresh s' := by
  obtain ⟨r, sq, _, hres, rfl⟩ := unlockDtorP_some h
  have hfq := resumePart_fresh hres hf
  intro id hid
  simp only at hid
  refine ⟨(hfq id hid).1, (hfq id hid).2.1, (hfq id hid).2.2.1, ?_⟩
  show setf sq.pauses pid none id = none
  by_cases hc : id = pid
  · subst hc; exact setf_same _ _ _
  · rw [setf_other _ _ _ _ hc]
    exact (hfq id hid).2.2.2

mutual
/-- Running a properly nested scoped object keeps ids at or above the
resulting counter unused. -/
theorem run_fresh : ∀ (it : Item) (s s' : State), run it s = some s' →
    Fresh s → Fresh s'
  | .scopeI e body, s, s', h, hf => by
      simp only [run] at h
      cases hb : runList body (scopeCtorP e s) with
      | none => simp only [hb] at h; cases h
      | some s2 =>
          simp only [hb] at h
          exact scopeDtorP_fresh h (runList_fresh body _ _ hb (scopeCtorP_fresh hf))
  | .cpuI e n0 n1 body, s, s', h, hf => by
      simp only [run] at h
      cases hc : cpuCtorP e n0 s with
      | none => simp only [hc] at h; cases h
      | some s1 =>
          simp only [hc] at h
          cases hb : runList body s1 with
          | none => simp only [hb] at h; cases h
          | some s2 =>
              simp only [hb] at h
              exact cpuDtorP_fresh h
                (runList_fresh body _ _ hb (cpuCtorP_fresh hc hf))
  | .wallI e nP nW nR nWD body, s, s', h, hf => by
      simp only [run] at h
      cases hc : wallCtorP e nP nW s with
      | none => simp only [hc] at h; cases h
      | some s1 =>
          simp only [hc] at h
          cases hb : runList body s1 with
          | none => simp only [hb] at h; cases h
          | some s2 =>
              simp only [hb] at h
              exact wallDtorP_fresh h
                (runList_fresh body _ _ hb (wallCtorP_fresh hc hf))
  | .lockI e nP nW n0 n1 nR nWD body, s, s', h, hf => by
      simp only [run] at h
      cases hc : lockCtorP e nP nW n0 s with
      | none => simp only [hc] at h; cases h
      | some s1 =>
          simp only [hc] at h
          cases hb : runList body s1 with
          | none => simp only [hb] at h; cases h
          | some s2 =>
              simp only [hb] at h
              obtain ⟨t2, hw, hcp⟩ := lockCtorP_some hc
              obtain ⟨u1, u2, hd1, hd2, hd3⟩ := lockDtorP_some h
              have hf1 : Fresh s1 :=
                cpuCtorP_fresh hcp (wallCtorP_fresh hw (scopeCtorP_fresh hf))
              have hf2 : Fresh s2 := runList_fresh body _ _ hb hf1
              exact scopeDtorP_fresh hd3
                (wallDtorP_fresh hd2 (cpuDtorP_fresh hd1 hf2))
  | .unlockI e nP nR body, s, s', h, hf => by
      simp only [run] at h
      cases hc : unlockCtorP e nP s with
      | none => simp only [hc] at h; cases h
      | some s1 =>
          simp only [hc] at h
          cases hb : runList body s1 with
          | none => simp only [hb] at h; cases h
          | some s2 =>
              simp only [hb] at h
              exact unlockDtorP_fresh h
                (runList_fresh body _ _ hb (unlockCtorP_fresh hc hf))
/-- Running a sequence of properly nested scoped objects preserves
freshness. -/
theorem runList_fresh : ∀ (l : Items) (s s' : State), runList l s = some s' →
    Fresh s → Fresh s'
  | .nil, s, s', h, hf => by
      cases Option.some.inj h
      exact hf
  | .cons it rest, s, s', h, hf => by
      simp only [runList] at h
      cases hr : run it s with
      | none => simp only [hr] at h; cases h
      | some s1 =>
          simp only [hr] at h
          exact runList_fresh rest _ _ h (run_fresh it _ _ hr hf)
end

theorem inv_s0 : Inv s0 := by
  refine ⟨fresh_s0, ?_, ?_⟩
  · intro t ht
    cases ht
  · intro e t ht
    cases ht

theorem cpuKey_some {o : Option CpuTimerRec} {a : Nat} {b : Option Nat}
    (h : cpuKey o = some (a, b)) : ∃ r, o = some r ∧ r.exec = a ∧ r.last = b := by
  cases o with
  | none => cases h
  | some r =>
      refine ⟨r, rfl, ?_, ?_⟩
      · exact congrArg Prod.fst (Option.some.inj h)
      · exact congrArg Prod.snd (Option.some.inj h)

theorem cpuCtorP_of_none {e : Nat} {now : Int} {s : State}
    (h : (s.execs e).cpu_timer = none) :
    cpuCtorP e now s =
      some { s with
             cpuT := setf s.cpuT s.nextId
               (some { exec := e, last := s.cpu_timer_thread, time := now })
             cpu_timer_thread := some s.nextId
             nextId := s.nextId + 1
             execs := setf s.execs e { s.execs e with cpu_timer := some s.nextId } } := by
  unfold cpuCtorP
  rw [if_pos h]

theorem wallInstallP_facts (e : Nat) (c : Option Nat) (nW : Int) (s : State) :
    (wallInstallP e c nW s).cpuT = s.cpuT ∧
    (∀ f, ((wallInstallP e c nW s).execs f).cpu_timer = (s.execs f).cpu_timer) ∧
    (wallInstallP e c nW s).cpu_timer_thread = s.cpu_timer_thread ∧
    (wallInstallP e c nW s).nextId = s.nextId + 1 ∧
    (wallInstallP e c nW s).scopes = s.scopes ∧
    (wallInstallP e c nW s).pauses = s.pauses ∧
    (wallInstallP e c nW s).current_executor = s.current_executor := by
  unfold wallInstallP
  by_cases hg : (s.execs e).wall_timer = none
  · rw [if_pos hg]
    refine ⟨rfl, ?_, rfl, rfl, rfl, rfl, rfl⟩
    intro f
    by_cases hf : f = e
    · subst hf; simp [setf_same]
    · simp [setf_other _ _ _ _ hf]
  · rw [if_neg hg]
    exact ⟨rfl, fun _ => rfl, rfl, rfl, rfl, rfl, rfl⟩

theorem wallInstallP_wallT_self (e : Nat) (c : Option Nat) (nW : Int) (s : State) :
    (wallInstallP e c nW s).wallT s.nextId =
      some { exec := e
             cpu_timer := c
             time := if (s.execs e).wall_timer = none then nW else 0 } := by
  unfold wallInstallP
  by_cases hg : (s.execs e).wall_timer = none
  · rw [if_pos hg]
    simp only [setf_same, if_pos hg]
  · rw [if_neg hg]
    simp only [setf_same, if_neg hg]

theorem wallFlushP_facts (id : Nat) (r : WallTimerRec) (nW : Int) (s : State) :
    (wallFlushP id r nW s).cpuT = s.cpuT ∧
    (∀ f, ((wallFlushP id r nW s).execs f).cpu_timer = (s.execs f).cpu_timer) ∧
    (wallFlushP id r nW s).cpu_timer_thread = s.cpu_timer_thread ∧
    (wallFlushP id r nW s).nextId = s.nextId ∧
    (wallFlushP id r nW s).scopes = s.scopes ∧
    (wallFlushP id r nW s).pauses = s.pauses ∧
    (wallFlushP id r nW s).current_executor = s.current_executor := by
  unfold wallFlushP
  by_cases hg : (s.execs r.exec).wall_timer = some id
  · rw [if_pos hg]
    refine ⟨rfl, ?_, rfl, rfl, rfl, rfl, rfl⟩
    intro f
    by_cases hf : f = r.exec
    · subst hf; simp [setf_same]
    · simp [setf_other _ _ _ _ hf]
  · rw [if_neg hg]
    exact ⟨rfl, fun _ => rfl, rfl, rfl, rfl, rfl, rfl⟩

theorem wallInstallP_execs_other (e : Nat) (c : Option Nat) (nW : Int) (s : State)
    (f : Nat) (hf : f ≠ e) : (wallInstallP e c nW s).execs f = s.execs f := by
  unfold wallInstallP
  by_cases hg : (s.execs e).wall_timer = none
  · rw [if_pos hg]
    exact setf_other _ _ _ _ hf
  · rw [if_neg hg]

theorem wallFlushP_execs_other (id : Nat) (r : WallTimerRec) (nW : Int) (s : State)
    (f : Nat) (hf : f ≠ r.exec) : (wallFlushP id r nW s).execs f = s.execs f := by
  unfold wallFlushP
  by_cases hg : (s.execs r.exec).wall_timer = some id
  · rw [if_pos hg]
    exact setf_other _ _ _ _ hf
  · rw [if_neg hg]

/-- Pausing the thread head timer (the first step of WallTimer construction)
always succeeds in a consistent state and leaves no executor with an
installed timer; everything except executor records is untouched. -/
theorem pause_head_step {s : State} (now : Int) (h2 : HeadInv s) (h3 : InstInv s) :
    ∃ sp, pausePart s.cpu_timer_thread now s = some sp ∧
      (∀ f, (sp.execs f).cpu_timer = none) ∧
      sp.cpuT = s.cpuT ∧ sp.wallT = s.wallT ∧ sp.scopes = s.scopes ∧
      sp.pauses = s.pauses ∧ sp.nextId = s.nextId ∧
      sp.cpu_timer_thread = s.cpu_timer_thread ∧
      sp.current_executor = s.current_executor ∧
      (∀ f, (sp.execs f).wall_timer = (s.execs f).wall_timer) ∧
      (∀ f, (∀ t r, s.cpu_timer_thread = some t → s.cpuT t = some r → f ≠ r.exec) →
        sp.execs f = s.execs f) := by
  cases hh : s.cpu_timer_thread with
  | none =>
      refine ⟨s, rfl, ?_, rfl, rfl, rfl, rfl, rfl, hh, rfl, fun _ => rfl, fun _ _ => rfl⟩
      intro f
      cases hcu : (s.execs f).cpu_timer with
      | none => rfl
      | some u =>
          have := (h3 f u hcu).1
          rw [hh] at this
          cases this
  | some t =>
      obtain ⟨r, hr, hinst⟩ := h2 t hh
      have hstep : cpuPauseP t now s =
          some { s with
                 execs := setf s.execs r.exec
                   { s.execs r.exec with
                     cpu_time := (s.execs r.exec).cpu_time + (now - r.time)
                     cpu_timer := none
                     holder_paused := true } } := by
        simp only [cpuPauseP, hr]
        rw [if_pos hinst]
      refine ⟨_, hstep, ?_, rfl, rfl, rfl, rfl, rfl, hh, rfl, ?_, ?_⟩
      · intro f
        by_cases hf : f = r.exec
        · subst hf; simp [setf_same]
        · simp only [setf_other _ _ _ _ hf]
          cases hcu : (s.execs f).cpu_timer with
          | none => rfl
          | some u =>
              obtain ⟨hu1, r2, hr2, hre⟩ := h3 f u hcu
              rw [hh] at hu1
              cases Option.some.inj hu1
              rw [hr] at hr2
              cases Option.some.inj hr2
              exact absurd hre.symm hf
      · intro f
        by_cases hf : f = r.exec
        · subst hf; simp [setf_same]
        · simp [setf_other _ _ _ _ hf]
      · intro f hcond
        have hf : f ≠ r.exec := hcond t r rfl hr
        exact setf_other _ _ _ _ hf

/-- C8 fails as stated: a properly nested scoped usage on which a fatal
assertion fires: constructing `CpuTimer(0)` directly inside `CpuTimer(0)`
violates the double-install assertion `executor.cpu_timer == nullptr`
(executor.cc line 25), so the run aborts. -/
theorem C8_counterexample :
    run (Item.cpuI 0 0 1 (Items.cons (Item.cpuI 0 2 3 Items.nil) Items.nil)) s0 =
      none := by
  rfl

/-- Entering a `Lock` from a consistent state always succeeds (no assertion
fires) and yields a consistent state in which the three freshly allocated
objects are laid out at the entry counter: the Scope at `sid`, the WallTimer
at `sid + 1` (capturing the entry thread head), the CpuTimer at `sid + 2`
(installed, the new head); older CpuTimer records are untouched. -/
theorem lock_enter (e : Nat) (nP nW n0 : Int) (s : State) (hinv : Inv s) :
    ∃ s1, lockCtorP e nP nW n0 s = some s1 ∧ Inv s1 ∧
      s1.nextId = s.nextId + 3 ∧
      s1.cpu_timer_thread = some (s.nextId + 2) ∧
      cpuKey (s1.cpuT (s.nextId + 2)) = some (e, s.cpu_timer_thread) ∧
      (∃ tW, s1.wallT (s.nextId + 1) =
        some { exec := e, cpu_timer := s.cpu_timer_thread, time := tW }) ∧
      s1.scopes s.nextId = some { last := s.current_executor } ∧
      (∀ id, id < s.nextId → s1.cpuT id = s.cpuT id) ∧
      (∀ f, f ≠ e →
        (∀ t r, s.cpu_timer_thread = some t → s.cpuT t = some r → f ≠ r.exec) →
        s1.execs f = s.execs f) := by
  obtain ⟨F, H, I⟩ := hinv
  have H1 : HeadInv (scopeCtorP e s) := H
  have I1 : InstInv (scopeCtorP e s) := I
  have F1 : Fresh (scopeCtorP e s) := scopeCtorP_fresh F
  obtain ⟨sp, hpp, hNoI, spT, spW, spS, spP, spN, spH, spC, spWall, spEx⟩ :=
    pause_head_step nP H1 I1
  have hwc : wallCtorP e nP nW (scopeCtorP e s) =
      some (wallInstallP e (scopeCtorP e s).cpu_timer_thread nW sp) := by
    simp only [wallCtorP, hpp]
  obtain ⟨wT, wCpu, wH, wN, wS, wP, wC⟩ :=
    wallInstallP_facts e (scopeCtorP e s).cpu_timer_thread nW sp
  have hspN : sp.nextId = s.nextId + 1 := spN
  have hWN : (wallInstallP e (scopeCtorP e s).cpu_timer_thread nW sp).nextId =
      s.nextId + 2 := by
    rw [wN, hspN]
  have hWH : (wallInstallP e (scopeCtorP e s).cpu_timer_thread nW sp).cpu_timer_thread =
      s.cpu_timer_thread := by
    rw [wH, spH]
    rfl
  have hcc : ((wallInstallP e (scopeCtorP e s).cpu_timer_thread nW sp).execs e).cpu_timer =
      none := by
    rw [wCpu e]
    exact hNoI e
  have hctor := @cpuCtorP_of_none _ n0 _ hcc
  have hlc : lockCtorP e nP nW n0 s =
      cpuCtorP e n0 (wallInstallP e (scopeCtorP e s).cpu_timer_thread nW sp) := by
    simp only [lockCtorP, hwc]
  refine ⟨_, hlc.trans hctor, ⟨?_, ?_, ?_⟩, ?_, ?_, ?_, ?_, ?_, ?_, ?_⟩
  · exact cpuCtorP_fresh hctor (wallCtorP_fresh hwc F1)
  · intro t ht
    simp only at ht
    rw [hWN] at ht
    cases Option.some.inj ht
    refine ⟨{ exec := e
              last := (wallInstallP e (scopeCtorP e s).cpu_timer_thread nW sp).cpu_timer_thread
              time := n0 }, ?_, ?_⟩
    · show setf (wallInstallP e (scopeCtorP e s).cpu_timer_thread nW sp).cpuT
        (wallInstallP e (scopeCtorP e s).cpu_timer_thread nW sp).nextId _ (s.nextId + 2) = _
      rw [hWN]
      exact setf_same _ _ _
    · show (setf (wallInstallP e (scopeCtorP e s).cpu_timer_thread nW sp).execs e _
        e).cpu_timer = some (s.nextId + 2)
      rw [setf_same]
      show some (wallInstallP e (scopeCtorP e s).cpu_timer_thread nW sp).nextId =
        some (s.nextId + 2)
      rw [hWN]
  · intro f u hu
    simp only at hu
    by_cases hf : f = e
    · subst hf
      rw [setf_same] at hu
      simp only at hu
      cases Option.some.inj hu
      refine ⟨by simp only, ?_⟩
      refine ⟨{ exec := f
                last := (wallInstallP f (scopeCtorP f s).cpu_timer_thread nW sp).cpu_timer_thread
                time := n0 }, ?_, rfl⟩
      show setf (wallInstallP f (scopeCtorP f s).cpu_timer_thread nW sp).cpuT
        (wallInstallP f (scopeCtorP f s).cpu_timer_thread nW sp).nextId _ _ = _
      exact setf_same _ _ _
    · rw [setf_other _ _ _ _ hf] at hu
      rw [wCpu f, hNoI f] at hu
      cases hu
  · show (wallInstallP e (scopeCtorP e s).cpu_timer_thread nW sp).nextId + 1 = s.nextId + 3
    rw [hWN]
  · show some (wallInstallP e (scopeCtorP e s).cpu_timer_thread nW sp).nextId =
      some (s.nextId + 2)
    rw [hWN]
  · show cpuKey (setf (wallInstallP e (scopeCtorP e s).cpu_timer_thread nW sp).cpuT
      (wallInstallP e (scopeCtorP e s).cpu_timer_thread nW sp).nextId
      (some { exec := e
              last := (wallInstallP e (scopeCtorP e s).cpu_timer_thread nW sp).cpu_timer_thread
              time := n0 }) (s.nextId + 2)) = some (e, s.cpu_timer_thread)
    rw [hWN, setf_same]
    rw [hWH]
    rfl
  · refine ⟨if (sp.execs e).wall_timer = none then nW else 0, ?_⟩
    show (wallInstallP e (scopeCtorP e s).cpu_timer_thread nW sp).wallT (s.nextId + 1) = _
    rw [show s.nextId + 1 = sp.nextId from hspN.symm]
    rw [wallInstallP_wallT_self]
    rfl
  · show (wallInstallP e (scopeCtorP e s).cpu_timer_thread nW sp).scopes s.nextId = _
    rw [wS, spS]
    show setf s.scopes s.nextId (some { last := s.current_executor }) s.nextId = _
    exact setf_same _ _ _
  · intro id hid
    have hne : id ≠ s.nextId + 2 := by omega
    show setf (wallInstallP e (scopeCtorP e s).cpu_timer_thread nW sp).cpuT
      (wallInstallP e (scopeCtorP e s).cpu_timer_thread nW sp).nextId
      (some { exec := e
              last := (wallInstallP e (scopeCtorP e s).cpu_timer_thread nW sp).cpu_timer_thread
              time := n0 }) id = s.cpuT id
    rw [hWN, setf_other _ _ _ _ hne, wT, spT]
    rfl
  · intro f hfe hcond
    show setf (wallInstallP e (scopeCtorP e s).cpu_timer_thread nW sp).execs e _ f =
      s.execs f
    rw [setf_other _ _ _ _ hfe]
    rw [wallInstallP_execs_other e _ nW sp f hfe]
    exact spEx f hcond

/-- Exiting the WallTimer-and-Scope tail of a `Lock` from a state in which
the CpuTimer destructor has already run: no assertion fires and consistency
is restored (the captured timer, if any, is resumed and becomes the installed
head again). -/
theorem wall_scope_exit (e sid : Nat) (cap cur0 : Option Nat) (tW nR nWD : Int)
    (u1 : State)
    (hNo : ∀ f, (u1.execs f).cpu_timer = none)
    (hF : Fresh u1)
    (hwall : u1.wallT (sid + 1) = some { exec := e, cpu_timer := cap, time := tW })
    (hscope : u1.scopes sid = some { last := cur0 })
    (hhead : u1.cpu_timer_thread = cap)
    (hcap : ∀ t, cap = some t → ∃ rt, u1.cpuT t = some rt) :
    ∃ s', (match wallDtorP (sid + 1) nR nWD u1 with
           | none => none
           | some s2x => scopeDtorP sid s2x) = some s' ∧ Inv s' ∧
      s'.cpu_timer_thread = cap ∧
      (∀ f, f ≠ e → (∀ t rt, cap = some t → u1.cpuT t = some rt → f ≠ rt.exec) →
        s'.execs f = u1.execs f) ∧
      (∀ t rt, cap = some t → u1.cpuT t = some rt →
        ∃ rt2, s'.cpuT t = some rt2 ∧ rt2.exec = rt.exec) := by
  cases hcapv : cap with
  | none =>
      subst hcapv
      have hdt2 : wallDtorP (sid + 1) nR nWD u1 =
          some (wallFlushP (sid + 1)
            { exec := e, cpu_timer := none, time := tW } nWD u1) := by
        simp only [wallDtorP, hwall, resumePart]
      obtain ⟨flT, flCpu, flH, flN, flS, flP, flC⟩ :=
        wallFlushP_facts (sid + 1) { exec := e, cpu_timer := none, time := tW } nWD u1
      have hsc2 : (wallFlushP (sid + 1)
          { exec := e, cpu_timer := none, time := tW } nWD u1).scopes sid =
          some { last := cur0 } := by
        rw [flS]
        exact hscope
      have hdt3 : scopeDtorP sid (wallFlushP (sid + 1)
          { exec := e, cpu_timer := none, time := tW } nWD u1) =
          some { wallFlushP (sid + 1)
                   { exec := e, cpu_timer := none, time := tW } nWD u1 with
                 scopes := setf (wallFlushP (sid + 1)
                   { exec := e, cpu_timer := none, time := tW } nWD u1).scopes sid none
                 current_executor := cur0 } := by
        simp only [scopeDtorP, hsc2]
      have hfin : (match wallDtorP (sid + 1) nR nWD u1 with
           | none => none
           | some s2x => scopeDtorP sid s2x) =
          some { wallFlushP (sid + 1)
                   { exec := e, cpu_timer := none, time := tW } nWD u1 with
                 scopes := setf (wallFlushP (sid + 1)
                   { exec := e, cpu_timer := none, time := tW } nWD u1).scopes sid none
                 current_executor := cur0 } := by
        rw [hdt2]
        exact hdt3
      refine ⟨_, hfin, ⟨?_, ?_, ?_⟩, ?_, ?_, ?_⟩
      · exact scopeDtorP_fresh hdt3 (wallDtorP_fresh hdt2 hF)
      · intro t ht
        simp only at ht
        rw [flH, hhead] at ht
        cases ht
      · intro f u hu
        simp only at hu
        rw [flCpu f, hNo f] at hu
        cases hu
      · simp only
        rw [flH]
        exact hhead
      · intro f hfe hcond
        show (wallFlushP (sid + 1)
          { exec := e, cpu_timer := none, time := tW } nWD u1).execs f = u1.execs f
        exact wallFlushP_execs_other _ _ _ _ f hfe
      · intro t rt h
        cases h
  | some t =>
      subst hcapv
      obtain ⟨rt, hrt⟩ := hcap t rfl
      have hres : cpuResumeP t nR u1 =
          some { u1 with
                 cpuT := setf u1.cpuT t (some { rt with time := nR })
                 execs := setf u1.execs rt.exec
                   { u1.execs rt.exec with
                     cpu_timer := some t
                     holder_paused := false } } := by
        simp only [cpuResumeP, hrt]
        rw [if_pos (hNo rt.exec)]
      have hdt2 : wallDtorP (sid + 1) nR nWD u1 =
          some (wallFlushP (sid + 1)
            { exec := e, cpu_timer := some t, time := tW } nWD
            { u1 with
              cpuT := setf u1.cpuT t (some { rt with time := nR })
              execs := setf u1.execs rt.exec
                { u1.execs rt.exec with
                  cpu_timer := some t
                  holder_paused := false } }) := by
        simp only [wallDtorP, hwall, resumePart, hres]
      obtain ⟨flT, flCpu, flH, flN, flS, flP, flC⟩ :=
        wallFlushP_facts (sid + 1) { exec := e, cpu_timer := some t, time := tW } nWD
          { u1 with
            cpuT := setf u1.cpuT t (some { rt with time := nR })
            execs := setf u1.execs rt.exec
              { u1.execs rt.exec with
                cpu_timer := some t
                holder_paused := false } }
      have hsc2 : (wallFlushP (sid + 1)
          { exec := e, cpu_timer := some t, time := tW } nWD
          { u1 with
            cpuT := setf u1.cpuT t (some { rt with time := nR })
            execs := setf u1.execs rt.exec
              { u1.execs rt.exec with
                cpu_timer := some t
                holder_paused := false } }).scopes sid = some { last := cur0 } := by
        rw [flS]
        exact hscope
      have hdt3x : scopeDtorP sid (wallFlushP (sid + 1)
          { exec := e, cpu_timer := some t, time := tW } nWD
          { u1 with
            cpuT := setf u1.cpuT t (some { rt with time := nR })
            execs := setf u1.execs rt.exec
              { u1.execs rt.exec with
                cpu_timer := some t
                holder_paused := false } }) =
          some { wallFlushP (sid + 1)
                   { exec := e, cpu_timer := some t, time := tW } nWD
                   { u1 with
                     cpuT := setf u1.cpuT t (some { rt with time := nR })
                     execs := setf u1.execs rt.exec
                       { u1.execs rt.exec with
                         cpu_timer := some t
                         holder_paused := false } } with
                 scopes := setf (wallFlushP (sid + 1)
                   { exec := e, cpu_timer := some t, time := tW } nWD
                   { u1 with
                     cpuT := setf u1.cpuT t (some { rt with time := nR })
                     execs := setf u1.execs rt.exec
                       { u1.execs rt.exec with
                         cpu_timer := some t
                         holder_paused := false } }).scopes sid none
                 current_executor := cur0 } := by
        simp only [scopeDtorP, hsc2]
      have hfin : (match wallDtorP (sid + 1) nR nWD u1 with
           | none => none
           | some s2x => scopeDtorP sid s2x) =
          some { wallFlushP (sid + 1)
                   { exec := e, cpu_timer := some t, time := tW } nWD
                   { u1 with
                     cpuT := setf u1.cpuT t (some { rt with time := nR })
                     execs := setf u1.execs rt.exec
                       { u1.execs rt.exec with
                         cpu_timer := some t
                         holder_paused := false } } with
                 scopes := setf (wallFlushP (sid + 1)
                   { exec := e, cpu_timer := some t, time := tW } nWD
                   { u1 with
                     cpuT := setf u1.cpuT t (some { rt with time := nR })
                     execs := setf u1.execs rt.exec
                       { u1.execs rt.exec with
                         cpu_timer := some t
                         holder_paused := false } }).scopes sid none
                 current_executor := cur0 } := by
        rw [hdt2]
        exact hdt3x
      refine ⟨_, hfin, ⟨?_, ?_, ?_⟩, ?_, ?_, ?_⟩
      · exact scopeDtorP_fresh hdt3x (wallDtorP_fresh hdt2 hF)
      · intro t2 ht2
        simp only at ht2
        rw [flH] at ht2
        simp only at ht2
        rw [hhead] at ht2
        cases Option.some.inj ht2
        refine ⟨{ rt with time := nR }, ?_, ?_⟩
        · show (wallFlushP _ _ _ _).cpuT t = _
          rw [flT]
          show setf u1.cpuT t _ t = _
          exact setf_same _ _ _
        · show ((wallFlushP _ _ _ _).execs rt.exec).cpu_timer = _
          rw [flCpu rt.exec]
          show (setf u1.execs rt.exec _ rt.exec).cpu_timer = _
          rw [setf_same]
      · intro f u hu
        simp only at hu
        rw [flCpu f] at hu
        simp only at hu
        by_cases hf : f = rt.exec
        · subst hf
          rw [setf_same] at hu
          simp only at hu
          cases Option.some.inj hu
          constructor
          · simp only
            rw [flH]
            simp only
            rw [hhead]
          · refine ⟨{ rt with time := nR }, ?_, rfl⟩
            show (wallFlushP _ _ _ _).cpuT t = _
            rw [flT]
            show setf u1.cpuT t _ t = _
            exact setf_same _ _ _
        · rw [setf_other _ _ _ _ hf, hNo f] at hu
          cases hu
      · simp only
        rw [flH]
        simp only
        exact hhead
      · intro f hfe hcond
        have hfrt : f ≠ rt.exec := hcond t rt rfl hrt
        show (wallFlushP (sid + 1)
          { exec := e, cpu_timer := some t, time := tW } nWD
          { u1 with
            cpuT := setf u1.cpuT t (some { rt with time := nR })
            execs := setf u1.execs rt.exec
              { u1.execs rt.exec with
                cpu_timer := some t
                holder_paused := false } }).execs f = u1.execs f
        rw [wallFlushP_execs_other _ _ _ _ f hfe]
        show setf u1.execs rt.exec _ f = u1.execs f
        exact setf_other _ _ _ _ hfrt
      · intro t2 rt2 h2 hrt2
        cases Option.some.inj h2
        rw [hrt] at hrt2
        cases Option.some.inj hrt2
        refine ⟨{ rt with time := nR }, ?_, rfl⟩
        show (wallFlushP _ _ _ _).cpuT t = _
        rw [flT]
        show setf u1.cpuT t _ t = _
        exact setf_same _ _ _

/-- Exiting a `Lock` whose three objects sit at `sid`, `sid + 1`, `sid + 2`
from a consistent state: no assertion fires and the resulting state is
consistent again. -/
theorem lock_exit (e sid : Nat) (cap cur0 : Option Nat) (tW n1 nR nWD : Int)
    (s2 : State) (hinv2 : Inv s2)
    (hhead : s2.cpu_timer_thread = some (sid + 2))
    (hkey : cpuKey (s2.cpuT (sid + 2)) = some (e, cap))
    (hwall : s2.wallT (sid + 1) = some { exec := e, cpu_timer := cap, time := tW })
    (hscope : s2.scopes sid = some { last := cur0 })
    (hcap : ∀ t, cap = some t → (∃ rt, s2.cpuT t = some rt) ∧ t ≠ sid + 2) :
    ∃ s', lockDtorP (sid + 2) (sid + 1) sid n1 nR nWD s2 = some s' ∧ Inv s' ∧
      s'.cpu_timer_thread = cap ∧
      (∀ f, f ≠ e → (∀ t rt, cap = some t → s2.cpuT t = some rt → f ≠ rt.exec) →
        s'.execs f = s2.execs f) ∧
      (∀ t rt, cap = some t → s2.cpuT t = some rt →
        ∃ rt2, s'.cpuT t = some rt2 ∧ rt2.exec = rt.exec) := by
  obtain ⟨F2, H2, I2⟩ := hinv2
  obtain ⟨r2, hr2, hr2e, hr2l⟩ := cpuKey_some hkey
  obtain ⟨r', hr', hinst'⟩ := H2 (sid + 2) hhead
  rw [hr2] at hr'
  cases Option.some.inj hr'
  have hdt1 : cpuDtorP (sid + 2) n1 s2 =
      some { s2 with
             cpu_timer_thread := r2.last
             cpuT := setf s2.cpuT (sid + 2) none
             execs := setf s2.execs r2.exec
               { s2.execs r2.exec with
                 cpu_time := (s2.execs r2.exec).cpu_time + (n1 - r2.time)
                 cpu_timer := none } } := by
    simp only [cpuDtorP, hr2]
    rw [if_pos hinst']
  have hNo1 : ∀ f, ((setf s2.execs r2.exec
      { s2.execs r2.exec with
        cpu_time := (s2.execs r2.exec).cpu_time + (n1 - r2.time)
        cpu_timer := none } : Nat → ExecRec) f).cpu_timer = none := by
    intro f
    by_cases hf : f = r2.exec
    · rw [hf, setf_same]
    · rw [setf_other _ _ _ _ hf]
      cases hcu : (s2.execs f).cpu_timer with
      | none => rfl
      | some u =>
          obtain ⟨hu1, ru, hru, hrue⟩ := I2 f u hcu
          rw [hhead] at hu1
          cases Option.some.inj hu1
          rw [hr2] at hru
          cases Option.some.inj hru
          exact absurd hrue.symm hf
  obtain ⟨s', hrun, hinv', hhead', hframe', hcpu'⟩ :=
    wall_scope_exit e sid cap cur0 tW nR nWD
    { s2 with
      cpu_timer_thread := r2.last
      cpuT := setf s2.cpuT (sid + 2) none
      execs := setf s2.execs r2.exec
        { s2.execs r2.exec with
          cpu_time := (s2.execs r2.exec).cpu_time + (n1 - r2.time)
          cpu_timer := none } }
    hNo1
    (cpuDtorP_fresh hdt1 F2)
    hwall
    hscope
    hr2l
    (by
      intro t ht
      obtain ⟨⟨rt, hrt⟩, htne⟩ := hcap t ht
      refine ⟨rt, ?_⟩
      show setf s2.cpuT (sid + 2) none t = some rt
      rw [setf_other _ _ _ _ htne]
      exact hrt)
  have hu1cpu : ∀ t, cap = some t →
      setf s2.cpuT (sid + 2) none t = s2.cpuT t := by
    intro t hc
    exact setf_other _ _ _ _ (hcap t hc).2
  refine ⟨s', ?_, hinv', hhead', ?_, ?_⟩
  · simp only [lockDtorP, hdt1]
    exact hrun
  · intro f hfe hcond
    have h1 := hframe' f hfe (by
      intro t rt hc hu1
      simp only at hu1
      rw [hu1cpu t hc] at hu1
      exact hcond t rt hc hu1)
    rw [h1]
    show setf s2.execs r2.exec _ f = s2.execs f
    refine setf_other _ _ _ _ ?_
    rw [hr2e]
    exact hfe
  · intro t rt hc hrt
    refine hcpu' t rt hc ?_
    show setf s2.cpuT (sid + 2) none t = some rt
    rw [hu1cpu t hc]
    exact hrt

mutual
/-- Under `Lock`-only properly nested usage, every operation succeeds from a
consistent state (no assertion fires) and consistency is preserved. -/
theorem run_total : ∀ (it : Item), lockOnly it = true → ∀ s : State, Inv s →
    ∃ s', run it s = some s' ∧ Inv s'
  | .scopeI e body, hl, s, _ => by simp [lockOnly] at hl
  | .cpuI e n0 n1 body, hl, s, _ => by simp [lockOnly] at hl
  | .wallI e nP nW nR nWD body, hl, s, _ => by simp [lockOnly] at hl
  | .unlockI e nP nR body, hl, s, _ => by simp [lockOnly] at hl
  | .lockI e nP nW n0 n1 nR nWD body, hl, s, hinv => by
      have hlb : lockOnlyList body = true := by simpa [lockOnly] using hl
      obtain ⟨s1, hlock, hinv1, hN1, hH1, hK1, hWex, hS1, hOld, hFr⟩ :=
        lock_enter e nP nW n0 s hinv
      obtain ⟨tW, hW1⟩ := hWex
      obtain ⟨s2, hbody, hinv2⟩ := runList_total body hlb s1 hinv1
      obtain ⟨frN, frH, frC, frSt⟩ := runList_frame body s1 s2 hbody
      have hlt2 : s.nextId + 2 < s1.nextId := by omega
      have hlt1 : s.nextId + 1 < s1.nextId := by omega
      have hlt0 : s.nextId < s1.nextId := by omega
      obtain ⟨k2, w2, sc2, p2⟩ := frSt (s.nextId + 2) hlt2
      obtain ⟨k1, w1, sc1, p1⟩ := frSt (s.nextId + 1) hlt1
      obtain ⟨k0, w0, sc0, p0⟩ := frSt s.nextId hlt0
      have hhead2 : s2.cpu_timer_thread = some (s.nextId + 2) := by rw [frH, hH1]
      have hkey2 : cpuKey (s2.cpuT (s.nextId + 2)) = some (e, s.cpu_timer_thread) := by
        rw [k2, hK1]
      have hwall2 : s2.wallT (s.nextId + 1) =
          some { exec := e, cpu_timer := s.cpu_timer_thread, time := tW } := by
        rw [w1, hW1]
      have hscope2 : s2.scopes s.nextId = some { last := s.current_executor } := by
        rw [sc0, hS1]
      have hcap2 : ∀ t, s.cpu_timer_thread = some t →
          (∃ rt, s2.cpuT t = some rt) ∧ t ≠ s.nextId + 2 := by
        intro t ht
        obtain ⟨F, H, I⟩ := hinv
        obtain ⟨r, hr, hri⟩ := H t ht
        have htlt : t < s.nextId := by
          by_contra hge
          rw [(F t (Nat.le_of_not_lt hge)).1] at hr
          cases hr
        have htlt1 : t < s1.nextId := by omega
        obtain ⟨kt, wt2, st2, pt2⟩ := frSt t htlt1
        have hkt : cpuKey (s2.cpuT t) = some (r.exec, r.last) := by
          rw [kt, hOld t htlt, hr]
          rfl
        obtain ⟨rt, hrt, hrte, hrtl⟩ := cpuKey_some hkt
        exact ⟨⟨rt, hrt⟩, by omega⟩
      obtain ⟨s', hdtor, hinv', hhd', hfr', hcpu'⟩ :=
        lock_exit e s.nextId s.cpu_timer_thread
          s.current_executor tW n1 nR nWD s2 hinv2 hhead2 hkey2 hwall2 hscope2 hcap2
      refine ⟨s', ?_, hinv'⟩
      simp only [run, hlock, hbody]
      exact hdtor
/-- Under `Lock`-only properly nested usage a whole sequence succeeds. -/
theorem runList_total : ∀ (l : Items), lockOnlyList l = true → ∀ s : State, Inv s →
    ∃ s', runList l s = some s' ∧ Inv s'
  | .nil, _, s, hinv => ⟨s, rfl, hinv⟩
  | .cons it rest, hl, s, hinv => by
      have hpair : lockOnly it = true ∧ lockOnlyList rest = true := by
        have := hl
        simp only [lockOnlyList, Bool.and_eq_true] at this
        exact this
      obtain ⟨s1, hr1, hi1⟩ := run_total it hpair.1 s hinv
      obtain ⟨s2, hr2, hi2⟩ := runList_total rest hpair.2 s1 hi1
      refine ⟨s2, ?_, hi2⟩
      simp only [runList, hr1]
      exact hr2
end

mutual
/-- Running `Lock`-only scopes that avoid executor `A` from a consistent
state leaves `A`'s executor record (its `cpu_time`, `cpu_timer` and all other
fields) completely unchanged. -/
theorem runA_total : ∀ (it : Item) (A : Nat), locksAvoid it A = true →
    ∀ s : State, Inv s → HeadAvoid s A →
    ∃ s', run it s = some s' ∧ Inv s' ∧ s'.execs A = s.execs A ∧ HeadAvoid s' A
  | .scopeI e body, A, hl, s, _, _ => by simp [locksAvoid] at hl
  | .cpuI e n0 n1 body, A, hl, s, _, _ => by simp [locksAvoid] at hl
  | .wallI e nP nW nR nWD body, A, hl, s, _, _ => by simp [locksAvoid] at hl
  | .unlockI e nP nR body, A, hl, s, _, _ => by simp [locksAvoid] at hl
  | .lockI e nP nW n0 n1 nR nWD body, A, hl, s, hinv, hha => by
      have hpair : e ≠ A ∧ locksAvoidList body A = true := by
        simp only [locksAvoid, Bool.and_eq_true, decide_eq_true_eq] at hl
        exact hl
      obtain ⟨s1, hlock, hinv1, hN1, hH1, hK1, hWex, hS1, hOld, hFr⟩ :=
        lock_enter e nP nW n0 s hinv
      obtain ⟨tW, hW1⟩ := hWex
      have hAne : A ≠ e := fun hc => hpair.1 hc.symm
      have hexA1 : s1.execs A = s.execs A := by
        refine hFr A hAne ?_
        intro t r ht hr
        exact fun hc => hha t r ht hr hc.symm
      have hha1 : HeadAvoid s1 A := by
        intro t r ht hr
        rw [hH1] at ht
        cases Option.some.inj ht
        obtain ⟨rk, hrk, hrke, hrkl⟩ := cpuKey_some hK1
        rw [hrk] at hr
        cases Option.some.inj hr
        rw [hrke]
        exact hpair.1
      obtain ⟨s2, hbody, hinv2, hexA2, hha2⟩ :=
        runListA_total body A hpair.2 s1 hinv1 hha1
      obtain ⟨frN, frH, frC, frSt⟩ := runList_frame body s1 s2 hbody
      have hlt2 : s.nextId + 2 < s1.nextId := by omega
      have hlt1 : s.nextId + 1 < s1.nextId := by omega
      have hlt0 : s.nextId < s1.nextId := by omega
      obtain ⟨k2, w2, sc2, p2⟩ := frSt (s.nextId + 2) hlt2
      obtain ⟨k1, w1, sc1, p1⟩ := frSt (s.nextId + 1) hlt1
      obtain ⟨k0, w0, sc0, p0⟩ := frSt s.nextId hlt0
      have hhead2 : s2.cpu_timer_thread = some (s.nextId + 2) := by rw [frH, hH1]
      have hkey2 : cpuKey (s2.cpuT (s.nextId + 2)) = some (e, s.cpu_timer_thread) := by
        rw [k2, hK1]
      have hwall2 : s2.wallT (s.nextId + 1) =
          some { exec := e, cpu_timer := s.cpu_timer_thread, time := tW } := by
        rw [w1, hW1]
      have hscope2 : s2.scopes s.nextId = some { last := s.current_executor } := by
        rw [sc0, hS1]
      have hcapkey : ∀ t, s.cpu_timer_thread = some t →
          ∃ r, s.cpuT t = some r ∧ t < s.nextId ∧
            cpuKey (s2.cpuT t) = some (r.exec, r.last) := by
        intro t ht
        obtain ⟨F, H, I⟩ := hinv
        obtain ⟨r, hr, hri⟩ := H t ht
        have htlt : t < s.nextId := by
          by_contra hge
          rw [(F t (Nat.le_of_not_lt hge)).1] at hr
          cases hr
        have htlt1 : t < s1.nextId := by omega
        obtain ⟨kt, wt2, st2, pt2⟩ := frSt t htlt1
        refine ⟨r, hr, htlt, ?_⟩
        rw [kt, hOld t htlt, hr]
        rfl
      have hcap2 : ∀ t, s.cpu_timer_thread = some t →
          (∃ rt, s2.cpuT t = some rt) ∧ t ≠ s.nextId + 2 := by
        intro t ht
        obtain ⟨r, hr, htlt, hkt⟩ := hcapkey t ht
        obtain ⟨rt, hrt, hrte, hrtl⟩ := cpuKey_some hkt
        exact ⟨⟨rt, hrt⟩, by omega⟩
      obtain ⟨s', hdtor, hinv', hhd', hfr', hcpu'⟩ :=
        lock_exit e s.nextId s.cpu_timer_thread
          s.current_executor tW n1 nR nWD s2 hinv2 hhead2 hkey2 hwall2 hscope2 hcap2
      have hexA' : s'.execs A = s2.execs A := by
        refine hfr' A hAne ?_
        intro t rt ht hrt
        obtain ⟨r, hr, htlt, hkt⟩ := hcapkey t ht
        rw [hrt] at hkt
        have hrte : rt.exec = r.exec := by
          have := Option.some.inj hkt
          exact congrArg Prod.fst this
        rw [hrte]
        exact fun hc => hha t r ht hr hc.symm
      have hha' : HeadAvoid s' A := by
        intro t r' ht' hr'
        rw [hhd'] at ht'
        obtain ⟨r, hr, htlt, hkt⟩ := hcapkey t ht'
        obtain ⟨rt, hrt, hrte, hrtl⟩ := cpuKey_some hkt
        obtain ⟨rt2, hrt2, hrt2e⟩ := hcpu' t rt ht' hrt
        rw [hrt2] at hr'
        cases Option.some.inj hr'
        rw [hrt2e, hrte]
        exact hha t r ht' hr
      refine ⟨s', ?_, hinv', ?_, hha'⟩
      · simp only [run, hlock, hbody]
        exact hdtor
      · rw [hexA', hexA2, hexA1]
/-- Running a sequence of `Lock`-only scopes avoiding `A` leaves `A`'s
record unchanged. -/
theorem runListA_total : ∀ (l : Items) (A : Nat), locksAvoidList l A = true →
    ∀ s : State, Inv s → HeadAvoid s A →
    ∃ s', runList l s = some s' ∧ Inv s' ∧ s'.execs A = s.execs A ∧ HeadAvoid s' A
  | .nil, A, _, s, hinv, hha => ⟨s, rfl, hinv, rfl, hha⟩
  | .cons it rest, A, hl, s, hinv, hha => by
      have hpair : locksAvoid it A = true ∧ locksAvoidList rest A = true := by
        simp only [locksAvoidList, Bool.and_eq_true] at hl
        exact hl
      obtain ⟨s1, hr1, hi1, he1, hh1⟩ := runA_total it A hpair.1 s hinv hha
      obtain ⟨s2, hr2, hi2, he2, hh2⟩ := runListA_total rest A hpair.2 s1 hi1 hh1
      refine ⟨s2, ?_, hi2, ?_, hh2⟩
      · simp only [runList, hr1]
        exact hr2
      · rw [he2, he1]
end

/-- C5 amended: `Pause` flushes the elapsed delta and clears `A.cpu_timer`;
as long as the thread then runs only properly nested Locks of executors
other than `A` (so `A`'s paused timer is never the lock target), `A`'s
executor record — in particular `cpu_time` and `cpu_timer` — is completely
unchanged; `Resume` reinstalls the timer with a fresh start time, after which
destruction accrues `Now() - time` to `A.cpu_time` again.  The original
claim fails for `B = A`: nested `Lock(A)` inside `Lock(A)` installs the inner
CpuTimer as `A.cpu_timer` and accrues to `A.cpu_time` while the outer timer
is still paused. -/
theorem C5_paused_executor_frozen :
    (∀ (id : Nat) (now : Int) (s s' : State) (r : CpuTimerRec),
      cpuPauseP id now s = some s' → s.cpuT id = some r →
      (s'.execs r.exec).cpu_timer = none ∧
      (s'.execs r.exec).cpu_time = (s.execs r.exec).cpu_time + (now - r.time)) ∧
    (∀ (items : Items) (A : Nat) (s : State),
      locksAvoidList items A = true → Inv s → HeadAvoid s A →
      ∃ s', runList items s = some s' ∧ s'.execs A = s.execs A) ∧
    (∀ (id : Nat) (now : Int) (s s' : State) (r : CpuTimerRec),
      cpuResumeP id now s = some s' → s.cpuT id = some r →
      (s'.execs r.exec).cpu_timer = some id ∧
      s'.cpuT id = some { r with time := now }) ∧
    (∀ (id : Nat) (now : Int) (s s' : State) (r : CpuTimerRec),
      cpuDtorP id now s = some s' → s.cpuT id = some r →
      (s'.execs r.exec).cpu_time = (s.execs r.exec).cpu_time + (now - r.time)) := by
  refine ⟨?_, ?_, ?_, ?_⟩
  · intro id now s s' r h hr
    obtain ⟨r', hr', hc, rfl⟩ := cpuPauseP_some h
    rw [hr] at hr'
    cases hr'
    constructor
    · show (setf s.execs r.exec _ r.exec).cpu_timer = none
      rw [setf_same]
    · show (setf s.execs r.exec _ r.exec).cpu_time = _
      rw [setf_same]
  · intro items A s hl hinv hha
    obtain ⟨s', hrun, _, hfr, _⟩ := runListA_total items A hl s hinv hha
    exact ⟨s', hrun, hfr⟩
  · intro id now s s' r h hr
    obtain ⟨r', hr', hc, rfl⟩ := cpuResumeP_some h
    rw [hr] at hr'
    cases hr'
    constructor
    · show (setf s.execs r.exec _ r.exec).cpu_timer = some id
      rw [setf_same]
    · show setf s.cpuT id _ id = _
      rw [setf_same]
  · intro id now s s' r h hr
    obtain ⟨r', hr', hc, rfl⟩ := cpuDtorP_some h
    rw [hr] at hr'
    cases hr'
    show (setf s.execs r.exec _ r.exec).cpu_time = _
    rw [setf_same]

theorem inv_c5s : Inv c5s := by
  obtain ⟨s1a, h1a, hinv1a, _⟩ := lock_enter 0 1 2 3 s0 inv_s0
  have e1 : lockCtorP 0 1 2 3 s0 = some ((lockCtorP 0 1 2 3 s0).getD s0) := rfl
  have hs1a : s1a = (lockCtorP 0 1 2 3 s0).getD s0 :=
    Option.some.inj (h1a.symm.trans e1)
  subst hs1a
  obtain ⟨s2a, h2a, hinv2a, _⟩ := lock_enter 1 11 12 13 _ hinv1a
  have e2 : lockCtorP 1 11 12 13 ((lockCtorP 0 1 2 3 s0).getD s0) =
      some c5s := rfl
  have hs2a : s2a = c5s := Option.some.inj (h2a.symm.trans e2)
  subst hs2a
  exact hinv2a

theorem headAvoid_c5s : HeadAvoid c5s 0 := by
  intro t r ht hr
  have hh : c5s.cpu_timer_thread = some 5 := rfl
  rw [hh] at ht
  cases Option.some.inj ht
  have hc : c5s.cpuT 5 = some { exec := 1, last := some 2, time := 13 } := rfl
  rw [hc] at hr
  cases Option.some.inj hr
  decide

/-- C5 amended witness: the paused state of executor 0 inside `Lock(1)`,
with a further `Lock(1)` running and leaving executor 0's record
untouched. -/
theorem C5_paused_executor_frozen_witness :
    locksAvoidList c5items 0 = true ∧ Inv c5s ∧ HeadAvoid c5s 0 ∧
    (∃ s', runList c5items c5s = some s' ∧ s'.execs 0 = c5s.execs 0) := by
  refine ⟨by decide, inv_c5s, headAvoid_c5s, ?_⟩
  exact C5_paused_executor_frozen.2.1 c5items 0 c5s (by decide) inv_c5s headAvoid_c5s

/-- C8 amended: the core's only error conditions are the three fatal
assertions, characterized exactly: CpuTimer construction aborts iff a timer
is already installed (double-install), destruction and `Pause` abort iff the
installed timer is not this one, `Resume` aborts iff a timer is already
installed.  Proper nesting alone does not prevent them (see the
counterexample: nested `CpuTimer(E)` inside `CpuTimer(E)` double-installs);
under properly nested `Lock`-only usage from a consistent state no assertion
fires and every operation is infallible. -/
theorem C8_assertion_characterization :
    (∀ (e : Nat) (now : Int) (s : State),
      cpuCtorP e now s = none ↔ ¬(s.execs e).cpu_timer = none) ∧
    (∀ (id : Nat) (now : Int) (s : State) (r : CpuTimerRec), s.cpuT id = some r →
      (cpuDtorP id now s = none ↔ ¬(s.execs r.exec).cpu_timer = some id)) ∧
    (∀ (id : Nat) (now : Int) (s : State) (r : CpuTimerRec), s.cpuT id = some r →
      (cpuPauseP id now s = none ↔ ¬(s.execs r.exec).cpu_timer = some id)) ∧
    (∀ (id : Nat) (now : Int) (s : State) (r : CpuTimerRec), s.cpuT id = some r →
      (cpuResumeP id now s = none ↔ ¬(s.execs r.exec).cpu_timer = none)) ∧
    (∀ (items : Items), lockOnlyList items = true → ∀ s : State, Inv s →
      ∃ s', runList items s = some s' ∧ Inv s') := by
  refine ⟨?_, ?_, ?_, ?_, runList_total⟩
  · intro e now s
    by_cases h : (s.execs e).cpu_timer = none
    · simp [cpuCtorP, if_pos h, h]
    · simp [cpuCtorP, if_neg h, h]
  · intro id now s r hr
    by_cases h : (s.execs r.exec).cpu_timer = some id
    · simp [cpuDtorP, hr, if_pos h, h]
    · simp [cpuDtorP, hr, if_neg h, h]
  · intro id now s r hr
    by_cases h : (s.execs r.exec).cpu_timer = some id
    · simp [cpuPauseP, hr, if_pos h, h]
    · simp [cpuPauseP, hr, if_neg h, h]
  · intro id now s r hr
    by_cases h : (s.execs r.exec).cpu_timer = none
    · simp [cpuResumeP, hr, if_pos h, h]
    · simp [cpuResumeP, hr, if_neg h, h]

/-- C8 amended witness: the `Resume` characterization at a concrete installed
state, and the nested `Lock(0)`-in-`Lock(0)` tree running to completion from
the empty state with no assertion firing. -/
theorem C8_assertion_characterization_witness :
    c2s.cpuT 0 = some { exec := 0, last := none, time := 2 } ∧
    (cpuResumeP 0 7 c2s = none ↔ ¬(c2s.execs 0).cpu_timer = none) ∧
    lockOnlyList c7tree = true ∧ Inv s0 ∧
    (∃ s', runList c7tree s0 = some s' ∧ Inv s') := by
  refine ⟨rfl, ?_, by decide, inv_s0, ?_⟩
  · exact C8_assertion_characterization.2.2.2.1 0 7 c2s _ rfl
  · exact C8_assertion_characterization.2.2.2.2 c7tree (by decide) s0 inv_s0

end ivm
